import Mathlib

/-!
# libcellml: the variable equivalence network and the expression tree

A shallow embedding of `src/variable.cpp` and of the classes of
`src/api/libcellml/operatorlibrary.h`.

Objects of class `Variable` live in a store.  A cell of the store is the
control block of one `std::shared_ptr<Variable>` allocation: it holds the
object while at least one owner exists and is empty once the object has been
destroyed.  Cells are never reused, so an expired `std::weak_ptr` stays
expired.

* `VariablePtr` (`std::shared_ptr<Variable>`) is `Option Nat`: `none` is the
  empty pointer, `some p` designates cell `p`.
* `VariableWeakPtr` (`std::weak_ptr<Variable>`) is `Option Nat` as well;
  `lock` resolves it against the store.

The classes of `operatorlibrary.h` are in the namespace `operators`: the
accessors of `BinaryOperator` and `UnaryOperator` are those of the header; the
bodies of `repr()` are not in the header and are modelled.
-/

namespace libcellml

/-- The enumeration `Variable::INTERFACE_TYPES`. -/
inductive INTERFACE_TYPES where
  | INTERFACE_TYPE_NONE
  | INTERFACE_TYPE_PRIVATE
  | INTERFACE_TYPE_PUBLIC
  | INTERFACE_TYPE_PUBLIC_AND_PRIVATE
  deriving DecidableEq, Repr

/-- Modelled from the spec: the class `Units` of `libcellml/units.h`, of which
`variable.cpp` only uses `getName()`; a units object is its name. -/
structure Units where
  mName : String
  deriving DecidableEq, Repr

/-- The type `UnitsPtr`, a shared pointer to `Units`; `none` is the empty pointer. -/
abbrev UnitsPtr := Option Units

/-- The type `VariablePtr`, a `std::shared_ptr<Variable>`: `none` is the empty
pointer, `some p` owns the object of cell `p`. -/
abbrev VariablePtr := Option Nat

/-- The type `VariableWeakPtr`, a `std::weak_ptr<Variable>`: `none` is the empty
weak pointer, `some p` observes cell `p` without owning it. -/
abbrev VariableWeakPtr := Option Nat

/-- The struct `Variable::VariableImpl`; `default` carries the member initialisers. -/
structure VariableImpl where
  mEquivalentVariables : List VariableWeakPtr := []
  mInitialValue : String := ""
  mInterfaceType : INTERFACE_TYPES := INTERFACE_TYPES.INTERFACE_TYPE_NONE
  mUnits : UnitsPtr := none
  deriving DecidableEq, Repr

/-- The class `Variable`: the name kept by its base class `NamedEntity` (declared
in `libcellml/namedentity.h`; a named entity is its name, copied by the copy
constructor and the assignment of the base class) and the private implementation. -/
structure Variable where
  mName : String := ""
  mPimpl : VariableImpl := {}
  deriving DecidableEq, Repr

/-- The store of `Variable` objects: cell `p` holds the object owned through
`some p`, or `none` once it has been destroyed. -/
abbrev Heap := List (Option Variable)

/-- The object of cell `p`, if it is alive. -/
def deref (h : Heap) (p : Nat) : Option Variable := (h.get? p).join

/-- Whether cell `p` holds a live object. -/
def live (h : Heap) (p : Nat) : Bool := (deref h p).isSome

/-- Store `v` in cell `p`. -/
def write (h : Heap) (p : Nat) (v : Variable) : Heap := h.set p (some v)

/-- The call `std::weak_ptr::lock()`: the owning pointer when the target is
alive, the empty pointer otherwise. -/
def lock (h : Heap) (w : VariableWeakPtr) : VariablePtr :=
  match w with
  | none => none
  | some p => if live h p then some p else none

/-- The method `Variable::VariableImpl::findEquivalentVariable`: `std::find_if`
with the predicate `equivalentVariable == variableWeak.lock()`; the position
of the first match, `none` standing for `end()`. -/
def findEquivalentVariable (h : Heap) (impl : VariableImpl)
    (equivalentVariable : VariablePtr) : Option Nat :=
  let i := impl.mEquivalentVariables.findIdx
    (fun variableWeak => decide (equivalentVariable = lock h variableWeak))
  if i < impl.mEquivalentVariables.length then some i else none

/-- The method `Variable::hasEquivalentVariable`. -/
def hasEquivalentVariable (h : Heap) (self : Variable)
    (equivalentVariable : VariablePtr) : Bool :=
  (findEquivalentVariable h self.mPimpl equivalentVariable).isSome

/-- The method `Variable::setEquivalentTo`. -/
def setEquivalentTo (h : Heap) (self : Variable)
    (equivalentVariable : VariablePtr) : Variable :=
  if !hasEquivalentVariable h self equivalentVariable then
    { self with mPimpl := { self.mPimpl with
        mEquivalentVariables := self.mPimpl.mEquivalentVariables ++ [equivalentVariable] } }
  else self

/-- The static method `Variable::addEquivalence`.  Both pointers are
dereferenced, so the call is defined only when both own a live object: the
result is `none` otherwise. -/
def addEquivalence (h : Heap) (variable1 variable2 : VariablePtr) : Option Heap :=
  match variable1, variable2 with
  | some p1, some p2 =>
    match deref h p1 with
    | none => none
    | some v1 =>
      let h1 := write h p1 (setEquivalentTo h v1 variable2)
      match deref h1 p2 with
      | none => none
      | some v2 => some (write h1 p2 (setEquivalentTo h1 v2 variable1))
  | _, _ => none

/-- The exception `std::out_of_range` thrown by `std::vector::at`. -/
inductive Error where
  | out_of_range
  deriving DecidableEq, Repr

/-- The method `Variable::getEquivalentVariable`: `at(index)` then `lock()`. -/
def getEquivalentVariable (h : Heap) (self : Variable) (index : Nat) :
    Except Error VariablePtr :=
  match self.mPimpl.mEquivalentVariables.get? index with
  | none => Except.error Error.out_of_range
  | some weakEquivalentVariable => Except.ok (lock h weakEquivalentVariable)

/-- The method `Variable::equivalentVariableCount`. -/
def equivalentVariableCount (self : Variable) : Nat :=
  self.mPimpl.mEquivalentVariables.length

/-- The end of the lifetime of the object of cell `p` (its last owner is
released); the cell stays, empty. -/
def destroy (h : Heap) (p : Nat) : Heap := h.set p none

/-- A call `std::make_shared<Variable>(v)`: a fresh cell holding `v`. -/
def alloc (h : Heap) (v : Variable) : Heap := h ++ [some v]

/-- The default constructor `Variable::Variable()`. -/
def Variable.new : Variable := {}

/-- The copy constructor `Variable::Variable(const Variable&)`: the base class
is copied, a fresh implementation is made and only the links are copied into it. -/
def Variable.copy (rhs : Variable) : Variable :=
  { mName := rhs.mName
    mPimpl := { mEquivalentVariables := rhs.mPimpl.mEquivalentVariables } }

/-- The assignment `Variable::operator=(Variable e)` called on an lvalue: `e` is
a copy of the argument, the base class is assigned from it and the
implementations are swapped; the old implementation dies with `e`. -/
def Variable.assign (_self rhs : Variable) : Variable :=
  let e := Variable.copy rhs
  { mName := e.mName, mPimpl := e.mPimpl }

/-- Modelled from the spec: the method `NamedEntity::setName` of the base class
(`libcellml/namedentity.h`), which stores the name of the entity. -/
def setName (self : Variable) (name : String) : Variable := { self with mName := name }

/-- Modelled from the spec: the method `NamedEntity::getName` of the base class
(`libcellml/namedentity.h`), which returns the stored name. -/
def getName (self : Variable) : String := self.mName

/-- The method `Variable::setUnits`. -/
def setUnits (self : Variable) (u : UnitsPtr) : Variable :=
  { self with mPimpl := { self.mPimpl with mUnits := u } }

/-- The method `Variable::getUnits`. -/
def getUnits (self : Variable) : UnitsPtr := self.mPimpl.mUnits

/-- The method `Variable::setInitialValue(const std::string&)`. -/
def setInitialValue (self : Variable) (initialValue : String) : Variable :=
  { self with mPimpl := { self.mPimpl with mInitialValue := initialValue } }

/-- The method `Variable::setInitialValue(const VariablePtr&)`, given the object
`v` points to. -/
def setInitialValueVariable (self : Variable) (v : Variable) : Variable :=
  { self with mPimpl := { self.mPimpl with mInitialValue := getName v } }

/-- The method `Variable::getInitialValue`. -/
def getInitialValue (self : Variable) : String := self.mPimpl.mInitialValue

/-- The method `Variable::setInterfaceType`. -/
def setInterfaceType (self : Variable) (interfaceType : INTERFACE_TYPES) : Variable :=
  { self with mPimpl := { self.mPimpl with mInterfaceType := interfaceType } }

/-- The method `Variable::getInterfaceType`. -/
def getInterfaceType (self : Variable) : INTERFACE_TYPES := self.mPimpl.mInterfaceType

/-- The method `Variable::setInitialValue(double)`; `text` is what the output
string stream holds after the value has been written to it. -/
def setInitialValueDouble (self : Variable) (text : String) : Variable :=
  { self with mPimpl := { self.mPimpl with mInitialValue := text } }

/-- A member call `self->f()` that replaces the object by `f` of it; undefined
(`none`) when `self` does not own a live object. -/
def update (h : Heap) (self : VariablePtr) (f : Variable → Variable) : Option Heap :=
  match self with
  | none => none
  | some p => (deref h p).map (fun v => write h p (f v))

/-- The operations a client of `Variable` performs on the store. -/
inductive Op where
  /-- `std::make_shared<Variable>()` -/
  | construct
  /-- `std::make_shared<Variable>(*src)` -/
  | copyConstruct (src : VariablePtr)
  /-- `*dst = *src` -/
  | assign (dst src : VariablePtr)
  | setName (self : VariablePtr) (name : String)
  | setUnits (self : VariablePtr) (u : UnitsPtr)
  | setInitialValue (self : VariablePtr) (initialValue : String)
  | setInitialValueDouble (self : VariablePtr) (text : String)
  | setInitialValueVariable (self : VariablePtr) (v : VariablePtr)
  | setInterfaceType (self : VariablePtr) (interfaceType : INTERFACE_TYPES)
  | addEquivalence (variable1 variable2 : VariablePtr)
  /-- the last owner of cell `p` is released -/
  | destroy (p : Nat)
  deriving DecidableEq, Repr

/-- One operation on the store; `none` when the operation dereferences a pointer
that owns no live object. -/
def Op.apply (h : Heap) : Op → Option Heap
  | Op.construct => some (alloc h Variable.new)
  | Op.copyConstruct src =>
    (src.bind (deref h)).map (fun v => alloc h (Variable.copy v))
  | Op.assign dst src =>
    (src.bind (deref h)).bind (fun v => update h dst (fun d => Variable.assign d v))
  | Op.setName self name => update h self (fun v => libcellml.setName v name)
  | Op.setUnits self u => update h self (fun v => libcellml.setUnits v u)
  | Op.setInitialValue self s => update h self (fun v => libcellml.setInitialValue v s)
  | Op.setInitialValueDouble self s => update h self (fun v => libcellml.setInitialValueDouble v s)
  | Op.setInitialValueVariable self v =>
    (v.bind (deref h)).bind (fun o => update h self (fun d => libcellml.setInitialValueVariable d o))
  | Op.setInterfaceType self t => update h self (fun v => libcellml.setInterfaceType v t)
  | Op.addEquivalence variable1 variable2 => libcellml.addEquivalence h variable1 variable2
  | Op.destroy p => some (libcellml.destroy h p)

/-- A sequence of operations, from left to right. -/
def run (h : Heap) : List Op → Option Heap
  | [] => some h
  | op :: ops => (Op.apply h op).bind (fun h1 => run h1 ops)

/-- The links of the object of cell `p` (empty when there is no live object). -/
def linksOf (h : Heap) (p : Nat) : List VariableWeakPtr :=
  match deref h p with
  | none => []
  | some v => v.mPimpl.mEquivalentVariables

/-- The query `p->hasEquivalentVariable(c)` on the store (false when cell `p`
holds no live object). -/
def hasEq (h : Heap) (p : Nat) (c : VariablePtr) : Bool :=
  match deref h p with
  | none => false
  | some v => hasEquivalentVariable h v c

/-- The member call `p->setEquivalentTo(c)` on the store (nothing happens when
cell `p` holds no live object). -/
def linkTo (h : Heap) (p : Nat) (c : VariablePtr) : Heap :=
  match deref h p with
  | none => h
  | some v => write h p (setEquivalentTo h v c)

/-- What the getters other than the link queries return: name, units, initial
value and interface type. -/
def attributes (v : Variable) : String × UnitsPtr × String × INTERFACE_TYPES :=
  (getName v, getUnits v, getInitialValue v, getInterfaceType v)

/-- The live variables the links of the object of cell `p` resolve to, in the
order of the link list. -/
def liveTargets (h : Heap) (p : Nat) : List Nat :=
  (linksOf h p).filterMap (lock h)

/-- Whether every live object of the store has an empty link list. -/
def emptyLinks (h : Heap) : Bool :=
  h.all (fun c => match c with
    | none => true
    | some v => v.mPimpl.mEquivalentVariables.isEmpty)

/-- The operations `Variable::addEquivalence` and destruction. -/
def Op.isUnionOrDestroy : Op → Bool
  | Op.addEquivalence _ _ => true
  | Op.destroy _ => true
  | _ => false

/-- The copy constructor and the assignment operator. -/
def Op.isCopy : Op → Bool
  | Op.copyConstruct _ => true
  | Op.assign _ _ => true
  | _ => false

/-- The state of an equivalence network: every link designates an allocated
cell, no link list resolves twice to the same live variable, and membership
is symmetric between live variables. -/
structure Network (h : Heap) : Prop where
  bounded : ∀ q w, w ∈ linksOf h q → ∃ p, w = some p ∧ p < h.length
  simple : ∀ q, (liveTargets h q).Nodup
  symmetric : ∀ a b, live h a = true → live h b = true →
    hasEq h a (some b) = hasEq h b (some a)

/-- Modelled from the spec: the enumeration `FORMATS` of the library (declared
outside the available sources), of which `variable.cpp` names only
`FORMAT_XML`; `FORMAT_OTHER n` stands for any other enumerator. -/
inductive FORMATS where
  | FORMAT_XML
  | FORMAT_OTHER (n : Nat)
  deriving DecidableEq, Repr

/-- Modelled from the spec: the call `getUnits()->getName()`, the name of a
units object (`Units` is a `NamedEntity`). -/
def Units.getName (u : Units) : String := u.mName

/-- The function `interfaceTypeToString`. -/
def interfaceTypeToString (interfaceType : INTERFACE_TYPES) : String :=
  match interfaceType with
  | INTERFACE_TYPES.INTERFACE_TYPE_NONE => "none"
  | INTERFACE_TYPES.INTERFACE_TYPE_PRIVATE => "private"
  | INTERFACE_TYPES.INTERFACE_TYPE_PUBLIC => "public"
  | INTERFACE_TYPES.INTERFACE_TYPE_PUBLIC_AND_PRIVATE => "public_and_private"

/-- The method `Variable::doSerialisation`: the statements `repr += ...` in
their order. -/
def doSerialisation (self : Variable) (format : FORMATS) : String :=
  let repr0 := ""
  if format = FORMATS.FORMAT_XML then
    let repr1 := repr0 ++ "<variable"
    let repr2 :=
      if (getName self).length ≠ 0 then repr1 ++ (" name=\"" ++ getName self ++ "\"")
      else repr1
    let repr3 :=
      match getUnits self with
      | some u => repr2 ++ (" units=\"" ++ u.getName ++ "\"")
      | none => repr2
    let repr4 :=
      if (getInitialValue self).length ≠ 0 then
        repr3 ++ (" initial_value=\"" ++ getInitialValue self ++ "\"")
      else repr3
    let repr5 :=
      if getInterfaceType self ≠ INTERFACE_TYPES.INTERFACE_TYPE_NONE then
        repr4 ++ (" interface=\"" ++ interfaceTypeToString (getInterfaceType self) ++ "\"")
      else repr4
    repr5 ++ "/>"
  else repr0

/-- The textual form of a variable in the words of the specification: the
attributes that are present, in the order name, units, initial value,
interface, between `<variable` and `/>`. -/
def variableElement (name : String) (units : Option String) (initialValue : String)
    (interfaceType : INTERFACE_TYPES) : String :=
  "<variable"
    ++ (if name = "" then "" else " name=\"" ++ name ++ "\"")
    ++ (match units with
        | none => ""
        | some u => " units=\"" ++ u ++ "\"")
    ++ (if initialValue = "" then "" else " initial_value=\"" ++ initialValue ++ "\"")
    ++ (match interfaceType with
        | INTERFACE_TYPES.INTERFACE_TYPE_NONE => ""
        | INTERFACE_TYPES.INTERFACE_TYPE_PRIVATE => " interface=\"private\""
        | INTERFACE_TYPES.INTERFACE_TYPE_PUBLIC => " interface=\"public\""
        | INTERFACE_TYPES.INTERFACE_TYPE_PUBLIC_AND_PRIVATE =>
          " interface=\"public_and_private\"")
    ++ "/>"

namespace operators

/-- The classes derived from `Representable` in `operatorlibrary.h`, as a tree:
a composite node owns its arguments.  `ArithmeticOperator` carries its member
`operatorRepresentation`, `STDOperator` its member `fun` (here `fun_`),
`Variable` its `name` and `Constant` its `value`; `D` is the type `double`. -/
inductive Representable (D : Type) where
  | ArithmeticOperator (operatorRepresentation : String) (arg1 arg2 : Representable D)
  | Power (arg1 arg2 : Representable D)
  | STDOperator (fun_ : String) (arg : Representable D)
  | Variable (name : String)
  | Constant (value : D)

/-- Modelled from the spec: the overrides of `repr()`, whose bodies are in
`operatorlibrary.cpp`, which is not available.  The layouts of the arithmetic,
power, variable and constant nodes are those of the specification; the layout
of `STDOperator` is the one its class documentation in `operatorlibrary.h`
gives: the string `std::`, then the operator, then the single argument
between parentheses.  The text of a `double` is the host's conversion, taken
as the parameter `text`. -/
def Representable.repr {D : Type} (text : D → String) : Representable D → String
  | Representable.ArithmeticOperator operatorRepresentation arg1 arg2 =>
    arg1.repr text ++ " " ++ operatorRepresentation ++ " " ++ arg2.repr text
  | Representable.Power arg1 arg2 =>
    "pow(" ++ arg1.repr text ++ ", " ++ arg2.repr text ++ ")"
  | Representable.STDOperator fun_ arg => "std::" ++ fun_ ++ "(" ++ arg.repr text ++ ")"
  | Representable.Variable name => name
  | Representable.Constant value => text value

/-- Modelled from the spec: the class `Addition`, an `ArithmeticOperator` built
with the symbol `+`, with both arguments plugged in. -/
def Addition {D : Type} (arg1 arg2 : Representable D) : Representable D :=
  Representable.ArithmeticOperator "+" arg1 arg2

/-- Modelled from the spec: the class `Subtraction`, an `ArithmeticOperator`
built with the symbol `-`, with both arguments plugged in. -/
def Subtraction {D : Type} (arg1 arg2 : Representable D) : Representable D :=
  Representable.ArithmeticOperator "-" arg1 arg2

/-- Modelled from the spec: the class `Multiplication`, an `ArithmeticOperator`
built with the symbol `*`, with both arguments plugged in. -/
def Multiplication {D : Type} (arg1 arg2 : Representable D) : Representable D :=
  Representable.ArithmeticOperator "*" arg1 arg2

/-- Modelled from the spec: the class `Division`, an `ArithmeticOperator` built
with the symbol `/`, with both arguments plugged in. -/
def Division {D : Type} (arg1 arg2 : Representable D) : Representable D :=
  Representable.ArithmeticOperator "/" arg1 arg2

/-- Modelled from the spec: the class `AbsoluteValue`, an `STDOperator` built
with the identifier `abs`, with its argument plugged in. -/
def AbsoluteValue {D : Type} (arg : Representable D) : Representable D :=
  Representable.STDOperator "abs" arg

/-- Modelled from the spec: the class `Sine`, an `STDOperator` built with the
identifier `sin`, with its argument plugged in. -/
def Sine {D : Type} (arg : Representable D) : Representable D :=
  Representable.STDOperator "sin" arg

/-- Modelled from the spec: the class `Cosine`, an `STDOperator` built with the
identifier `cos`, with its argument plugged in. -/
def Cosine {D : Type} (arg : Representable D) : Representable D :=
  Representable.STDOperator "cos" arg

/-- The class `BinaryOperator`: its two pluggable arguments; `P` is the type
`std::shared_ptr<Representable>`. -/
structure BinaryOperator (P : Type) where
  arg1 : P
  arg2 : P

/-- The method `BinaryOperator::getArg1`; a `const` method is a function of the
object. -/
def BinaryOperator.getArg1 {P : Type} (self : BinaryOperator P) : P := self.arg1

/-- The method `BinaryOperator::setArg1`. -/
def BinaryOperator.setArg1 {P : Type} (self : BinaryOperator P) (a1 : P) :
    BinaryOperator P :=
  { self with arg1 := a1 }

/-- The method `BinaryOperator::getArg2`. -/
def BinaryOperator.getArg2 {P : Type} (self : BinaryOperator P) : P := self.arg2

/-- The method `BinaryOperator::setArg2`. -/
def BinaryOperator.setArg2 {P : Type} (self : BinaryOperator P) (a2 : P) :
    BinaryOperator P :=
  { self with arg2 := a2 }

/-- The class `UnaryOperator`: its pluggable argument. -/
structure UnaryOperator (P : Type) where
  arg : P

/-- The method `UnaryOperator::getArg`. -/
def UnaryOperator.getArg {P : Type} (self : UnaryOperator P) : P := self.arg

/-- The method `UnaryOperator::setArg`. -/
def UnaryOperator.setArg {P : Type} (_self : UnaryOperator P) (a : P) : UnaryOperator P :=
  { arg := a }

/-- One of the four operator symbols `+ - * /`. -/
def isOperatorSymbol (c : Char) : Bool :=
  c == '+' || c == '-' || c == '*' || c == '/'

/-- The number of occurrences of an operator symbol in a text. -/
def operatorCount (s : String) : Nat := s.data.countP isOperatorSymbol

/-- The number of leaves of a tree. -/
def leafCount {D : Type} : Representable D → Nat
  | Representable.ArithmeticOperator _ arg1 arg2 => leafCount arg1 + leafCount arg2
  | Representable.Power arg1 arg2 => leafCount arg1 + leafCount arg2
  | Representable.STDOperator _ arg => leafCount arg
  | Representable.Variable _ => 1
  | Representable.Constant _ => 1

/-- Whether a tree is built only from `Addition`, `Subtraction`,
`Multiplication` and `Division` nodes over `Variable` leaves. -/
def isArithmeticTree {D : Type} : Representable D → Bool
  | Representable.ArithmeticOperator opr arg1 arg2 =>
    (opr == "+" || opr == "-" || opr == "*" || opr == "/") &&
      isArithmeticTree arg1 && isArithmeticTree arg2
  | Representable.Variable _ => true
  | _ => false

/-- Whether no `Variable` leaf of a tree has an operator symbol in its name. -/
def plainNames {D : Type} : Representable D → Bool
  | Representable.ArithmeticOperator _ arg1 arg2 => plainNames arg1 && plainNames arg2
  | Representable.Power arg1 arg2 => plainNames arg1 && plainNames arg2
  | Representable.STDOperator _ arg => plainNames arg
  | Representable.Variable name => name.data.all (fun c => !isOperatorSymbol c)
  | Representable.Constant _ => true

/-- Whether every operator symbol of the characters `l`, read after the
character `prev` (if any), has a space right before it and a space right
after it. -/
def spacedFrom (prev : Option Char) : List Char → Bool
  | [] => true
  | c :: rest =>
    (!isOperatorSymbol c || (prev == some ' ' && rest.head? == some ' ')) &&
      spacedFrom (some c) rest

/-- Whether every operator symbol of a text has a space right before it and a
space right after it. -/
def operatorsSpaced (s : String) : Bool := spacedFrom none s.data

end operators

/-! ## The store -/

theorem deref_lt {h : Heap} {p : Nat} {v : Variable} (hp : deref h p = some v) :
    p < h.length := by
  by_contra hlt
  have : h[p]? = none := List.getElem?_eq_none (Nat.le_of_not_lt hlt)
  simp [deref, this] at hp

theorem live_iff {h : Heap} {p : Nat} : live h p = true ↔ ∃ v, deref h p = some v := by
  simp [live, Option.isSome_iff_exists]

theorem deref_write_same {h : Heap} {p : Nat} (v : Variable) (hp : p < h.length) :
    deref (write h p v) p = some v := by
  simp [deref, write, List.getElem?_set, hp]

theorem deref_write_ne {h : Heap} {p q : Nat} (v : Variable) (hne : q ≠ p) :
    deref (write h p v) q = deref h q := by
  simp [deref, write, List.getElem?_set, Ne.symm hne]

theorem write_self {h : Heap} {p : Nat} {v : Variable} (hp : deref h p = some v) :
    write h p v = h := by
  have hlt := deref_lt hp
  apply List.ext_getElem?
  intro q
  by_cases hq : q = p
  · subst hq
    have h1 : h[q]? = some (some v) := by
      simp only [deref, List.get?_eq_getElem?] at hp
      cases hx : h[q]? with
      | none => simp [hx] at hp
      | some x => simp [hx] at hp; simp [hp]
    simp [write, List.getElem?_set, hlt, h1]
  · simp [write, List.getElem?_set, Ne.symm hq]

theorem live_write {h : Heap} {p : Nat} (v : Variable) (hp : live h p = true) (q : Nat) :
    live (write h p v) q = live h q := by
  obtain ⟨u, hu⟩ := live_iff.mp hp
  by_cases hq : q = p
  · subst hq
    simp [live, deref_write_same v (deref_lt hu), hu]
  · simp [live, deref_write_ne v hq]

theorem lock_write {h : Heap} {p : Nat} (v : Variable) (hp : live h p = true)
    (w : VariableWeakPtr) : lock (write h p v) w = lock h w := by
  cases w with
  | none => rfl
  | some q => simp [lock, live_write v hp]

theorem length_write (h : Heap) (p : Nat) (v : Variable) :
    (write h p v).length = h.length := by
  simp [write]

theorem deref_destroy_same (h : Heap) (p : Nat) : deref (destroy h p) p = none := by
  by_cases hp : p < h.length
  · simp [deref, destroy, List.getElem?_set, hp]
  · have hn : (h.set p none)[p]? = none :=
      List.getElem?_eq_none (by simp; exact Nat.le_of_not_lt hp)
    simp [deref, destroy, hn]

theorem deref_destroy_ne (h : Heap) {p q : Nat} (hne : q ≠ p) :
    deref (destroy h p) q = deref h q := by
  simp [deref, destroy, List.getElem?_set, Ne.symm hne]

/-! ## Membership and the one-sided link -/

theorem hasEquivalentVariable_iff {h : Heap} {v : Variable} {c : VariablePtr} :
    hasEquivalentVariable h v c = true ↔
      ∃ w ∈ v.mPimpl.mEquivalentVariables, c = lock h w := by
  unfold hasEquivalentVariable findEquivalentVariable
  by_cases hlt : List.findIdx (fun variableWeak => decide (c = lock h variableWeak))
      v.mPimpl.mEquivalentVariables < v.mPimpl.mEquivalentVariables.length
  · have hex := List.findIdx_lt_length.mp hlt
    simp only [hlt, if_true, Option.isSome_some, true_iff]
    obtain ⟨w, hw, hc⟩ := hex
    exact ⟨w, hw, of_decide_eq_true hc⟩
  · simp only [hlt, if_false, Option.isSome_none, Bool.false_eq_true, false_iff]
    rintro ⟨w, hw, hc⟩
    exact hlt (List.findIdx_lt_length.mpr ⟨w, hw, decide_eq_true hc⟩)

theorem hasEquivalentVariable_congr {h h' : Heap} (hl : ∀ w, lock h' w = lock h w)
    (v : Variable) (c : VariablePtr) :
    hasEquivalentVariable h' v c = hasEquivalentVariable h v c := by
  rw [Bool.eq_iff_iff, hasEquivalentVariable_iff, hasEquivalentVariable_iff]
  simp only [hl]

theorem setEquivalentTo_congr {h h' : Heap} (hl : ∀ w, lock h' w = lock h w)
    (v : Variable) (c : VariablePtr) :
    setEquivalentTo h' v c = setEquivalentTo h v c := by
  unfold setEquivalentTo
  rw [hasEquivalentVariable_congr hl]

theorem setEquivalentTo_of_has {h : Heap} {v : Variable} {c : VariablePtr}
    (hc : hasEquivalentVariable h v c = true) : setEquivalentTo h v c = v := by
  simp [setEquivalentTo, hc]

theorem links_setEquivalentTo (h : Heap) (v : Variable) (c : VariablePtr) :
    (setEquivalentTo h v c).mPimpl.mEquivalentVariables =
      if hasEquivalentVariable h v c then v.mPimpl.mEquivalentVariables
      else v.mPimpl.mEquivalentVariables ++ [c] := by
  unfold setEquivalentTo
  cases hasEquivalentVariable h v c <;> simp

theorem lock_some_live {h : Heap} {p : Nat} (hp : live h p = true) :
    lock h (some p) = some p := by
  simp [lock, hp]

theorem has_setEquivalentTo_self {h : Heap} (v : Variable) {p : Nat}
    (hp : live h p = true) :
    hasEquivalentVariable h (setEquivalentTo h v (some p)) (some p) = true := by
  cases hc : hasEquivalentVariable h v (some p) with
  | true => rw [setEquivalentTo_of_has hc]; exact hc
  | false =>
    rw [hasEquivalentVariable_iff, links_setEquivalentTo, hc]
    exact ⟨some p, by simp, (lock_some_live hp).symm⟩

theorem has_setEquivalentTo_mono {h : Heap} {v : Variable} {c : VariablePtr}
    (c' : VariablePtr) (hc : hasEquivalentVariable h v c = true) :
    hasEquivalentVariable h (setEquivalentTo h v c') c = true := by
  rw [hasEquivalentVariable_iff] at hc ⊢
  obtain ⟨w, hw, hcw⟩ := hc
  refine ⟨w, ?_, hcw⟩
  rw [links_setEquivalentTo]
  split
  · exact hw
  · exact List.mem_append_left _ hw

/-! ## The union -/

theorem addEquivalence_ne {h : Heap} {a b : Nat} {va vb : Variable}
    (ha : deref h a = some va) (hb : deref h b = some vb) (hab : a ≠ b) :
    addEquivalence h (some a) (some b) =
      some (write (write h a (setEquivalentTo h va (some b))) b
        (setEquivalentTo h vb (some a))) := by
  have hla : live h a = true := live_iff.mpr ⟨va, ha⟩
  have hb1 : deref (write h a (setEquivalentTo h va (some b))) b = some vb := by
    rw [deref_write_ne _ (Ne.symm hab)]; exact hb
  simp only [addEquivalence, ha, hb1]
  rw [setEquivalentTo_congr (lock_write _ hla)]

theorem addEquivalence_self {h : Heap} {a : Nat} {va : Variable}
    (ha : deref h a = some va) :
    addEquivalence h (some a) (some a) =
      some (write h a (setEquivalentTo h va (some a))) := by
  have hla : live h a = true := live_iff.mpr ⟨va, ha⟩
  have h1 : deref (write h a (setEquivalentTo h va (some a))) a =
      some (setEquivalentTo h va (some a)) := deref_write_same _ (deref_lt ha)
  simp only [addEquivalence, ha, h1]
  rw [setEquivalentTo_congr (lock_write _ hla),
    setEquivalentTo_of_has (has_setEquivalentTo_self va hla), write_self h1]

theorem hasEq_write {h : Heap} {p : Nat} (v : Variable) (hp : live h p = true)
    {q : Nat} {u : Variable} (hq : deref (write h p v) q = some u) (c : VariablePtr) :
    hasEq (write h p v) q c = hasEquivalentVariable h u c := by
  simp only [hasEq, hq]
  exact hasEquivalentVariable_congr (lock_write v hp) u c

theorem addEquivalence_noop {h : Heap} {a b : Nat}
    (hab : hasEq h a (some b) = true) (hba : hasEq h b (some a) = true) :
    addEquivalence h (some a) (some b) = some h := by
  cases ha : deref h a with
  | none => simp [hasEq, ha] at hab
  | some va =>
    cases hb : deref h b with
    | none => simp [hasEq, hb] at hba
    | some vb =>
      simp only [hasEq, ha] at hab
      simp only [hasEq, hb] at hba
      have e1 : write h a va = h := write_self ha
      simp only [addEquivalence, ha, setEquivalentTo_of_has hab, e1, hb,
        setEquivalentTo_of_has hba, write_self hb]

theorem addEquivalence_has {h : Heap} {a b : Nat}
    (ha : live h a = true) (hb : live h b = true) :
    ∃ h', addEquivalence h (some a) (some b) = some h' ∧
      hasEq h' a (some b) = true ∧ hasEq h' b (some a) = true := by
  obtain ⟨va, hva⟩ := live_iff.mp ha
  obtain ⟨vb, hvb⟩ := live_iff.mp hb
  by_cases hab : a = b
  · subst hab
    have hd := deref_write_same (setEquivalentTo h va (some a)) (deref_lt hva)
    refine ⟨_, addEquivalence_self hva, ?_, ?_⟩ <;>
    · rw [hasEq_write _ ha hd]
      exact has_setEquivalentTo_self va ha
  · refine ⟨_, addEquivalence_ne hva hvb hab, ?_, ?_⟩
    · have hb1 : live (write h a (setEquivalentTo h va (some b))) b = true := by
        rw [live_write _ ha]; exact hb
      have hd : deref (write (write h a (setEquivalentTo h va (some b))) b
          (setEquivalentTo h vb (some a))) a = some (setEquivalentTo h va (some b)) := by
        rw [deref_write_ne _ hab]
        exact deref_write_same _ (deref_lt hva)
      rw [hasEq_write _ hb1 hd, hasEquivalentVariable_congr (lock_write _ ha)]
      exact has_setEquivalentTo_self va hb
    · have hb1 : live (write h a (setEquivalentTo h va (some b))) b = true := by
        rw [live_write _ ha]; exact hb
      have hlt : b < (write h a (setEquivalentTo h va (some b))).length := by
        rw [length_write]; exact deref_lt hvb
      rw [hasEq_write _ hb1 (deref_write_same _ hlt),
        hasEquivalentVariable_congr (lock_write _ ha)]
      exact has_setEquivalentTo_self vb ha

/-! ## The one-sided link on the store -/

theorem addEquivalence_eq_linkTo {h : Heap} {a b : Nat}
    (ha : live h a = true) (hb : live h b = true) :
    addEquivalence h (some a) (some b) =
      some (linkTo (linkTo h a (some b)) b (some a)) := by
  obtain ⟨va, hva⟩ := live_iff.mp ha
  have hb1 : live (write h a (setEquivalentTo h va (some b))) b = true := by
    rw [live_write _ ha]; exact hb
  obtain ⟨vb, hvb⟩ := live_iff.mp hb1
  simp only [addEquivalence, linkTo, hva, hvb]

theorem length_linkTo (h : Heap) (p : Nat) (c : VariablePtr) :
    (linkTo h p c).length = h.length := by
  unfold linkTo
  split
  · rfl
  · exact length_write _ _ _

theorem deref_linkTo_ne (h : Heap) {p q : Nat} (c : VariablePtr) (hne : q ≠ p) :
    deref (linkTo h p c) q = deref h q := by
  unfold linkTo
  split
  · rfl
  · exact deref_write_ne _ hne

theorem deref_linkTo_same {h : Heap} {p : Nat} {v : Variable} (c : VariablePtr)
    (hp : deref h p = some v) :
    deref (linkTo h p c) p = some (setEquivalentTo h v c) := by
  simp only [linkTo, hp]
  exact deref_write_same _ (deref_lt hp)

theorem attributes_setEquivalentTo (h : Heap) (v : Variable) (c : VariablePtr) :
    attributes (setEquivalentTo h v c) = attributes v := by
  unfold setEquivalentTo
  split <;> rfl

theorem attributes_linkTo (h : Heap) (p : Nat) (c : VariablePtr) (q : Nat) :
    (deref (linkTo h p c) q).map attributes = (deref h q).map attributes := by
  by_cases hq : q = p
  · subst hq
    cases hv : deref h q with
    | none => simp [linkTo, hv]
    | some v => simp [deref_linkTo_same c hv, attributes_setEquivalentTo]
  · rw [deref_linkTo_ne h c hq]

theorem live_linkTo (h : Heap) (p : Nat) (c : VariablePtr) (q : Nat) :
    live (linkTo h p c) q = live h q := by
  have := congrArg Option.isSome (attributes_linkTo h p c q)
  simpa [live] using this

theorem lock_congr {h h' : Heap} (hl : ∀ q, live h' q = live h q) (w : VariableWeakPtr) :
    lock h' w = lock h w := by
  cases w with
  | none => rfl
  | some q => simp [lock, hl]

theorem hasEq_iff {h : Heap} {q : Nat} {c : VariablePtr} :
    hasEq h q c = true ↔ ∃ w ∈ linksOf h q, c = lock h w := by
  unfold hasEq linksOf
  cases deref h q with
  | none => simp
  | some v => exact hasEquivalentVariable_iff

theorem linksOf_linkTo {h : Heap} {p : Nat} (c : VariablePtr) (hp : live h p = true)
    (q : Nat) :
    linksOf (linkTo h p c) q =
      if q = p ∧ hasEq h p c = false then linksOf h q ++ [c] else linksOf h q := by
  obtain ⟨v, hv⟩ := live_iff.mp hp
  by_cases hq : q = p
  · subst hq
    simp only [linksOf, deref_linkTo_same c hv, hv, hasEq, links_setEquivalentTo, true_and]
    cases hasEquivalentVariable h v c <;> simp
  · simp [linksOf, deref_linkTo_ne h c hq, hq]

/-! ## The claims -/

/-- C1 (symmetry of the union): for any two live variables `a` and `b`, whatever
their link lists hold, `Variable::addEquivalence(a, b)` is defined and afterwards
both `a->hasEquivalentVariable(b)` and `b->hasEquivalentVariable(a)` are true. -/
theorem addEquivalence_symmetric (h : Heap) (a b : Nat)
    (ha : live h a = true) (hb : live h b = true) :
    ∃ h', addEquivalence h (some a) (some b) = some h' ∧
      hasEq h' a (some b) = true ∧ hasEq h' b (some a) = true :=
  addEquivalence_has ha hb

/-- Witness of C1: a store whose cell 0 already links to a destroyed variable
(cell 2) and whose cell 1 has no links. -/
theorem addEquivalence_symmetric_witness :
    live [some { mPimpl := { mEquivalentVariables := [some 2] } }, some {}, none] 0 = true ∧
    live [some { mPimpl := { mEquivalentVariables := [some 2] } }, some {}, none] 1 = true ∧
    ∃ h', addEquivalence
        [some { mPimpl := { mEquivalentVariables := [some 2] } }, some {}, none]
        (some 0) (some 1) = some h' ∧
      hasEq h' 0 (some 1) = true ∧ hasEq h' 1 (some 0) = true :=
  ⟨by decide, by decide, addEquivalence_symmetric _ 0 1 (by decide) (by decide)⟩

/-- C2 (idempotence of the union): for two distinct live variables `a` and `b` a
second `Variable::addEquivalence(a, b)` returns the store the first call
produced, unchanged; and when both link lists were empty at the start, both
counts are 1 after the two calls. -/
theorem addEquivalence_idempotent (h : Heap) (a b : Nat)
    (ha : live h a = true) (hb : live h b = true) (hab : a ≠ b) :
    ∃ h1, addEquivalence h (some a) (some b) = some h1 ∧
      addEquivalence h1 (some a) (some b) = some h1 ∧
      (linksOf h a = [] → linksOf h b = [] →
        ∃ va vb, deref h1 a = some va ∧ deref h1 b = some vb ∧
          equivalentVariableCount va = 1 ∧ equivalentVariableCount vb = 1) := by
  obtain ⟨h1, e1, hab1, hba1⟩ := addEquivalence_has ha hb
  refine ⟨h1, e1, addEquivalence_noop hab1 hba1, ?_⟩
  intro ea eb
  obtain ⟨va, hva⟩ := live_iff.mp ha
  obtain ⟨vb, hvb⟩ := live_iff.mp hb
  rw [addEquivalence_ne hva hvb hab] at e1
  injection e1 with e1
  subst e1
  simp only [linksOf, hva] at ea
  simp only [linksOf, hvb] at eb
  have hlt : b < (write h a (setEquivalentTo h va (some b))).length := by
    rw [length_write]; exact deref_lt hvb
  refine ⟨setEquivalentTo h va (some b), setEquivalentTo h vb (some a), ?_,
    deref_write_same _ hlt, ?_, ?_⟩
  · rw [deref_write_ne _ hab]
    exact deref_write_same _ (deref_lt hva)
  · have hn : hasEquivalentVariable h va (some b) = false := by
      rw [← Bool.not_eq_true, hasEquivalentVariable_iff, ea]; simp
    simp [equivalentVariableCount, links_setEquivalentTo, hn, ea]
  · have hn : hasEquivalentVariable h vb (some a) = false := by
      rw [← Bool.not_eq_true, hasEquivalentVariable_iff, eb]; simp
    simp [equivalentVariableCount, links_setEquivalentTo, hn, eb]

/-- Witness of C2: two fresh variables. -/
theorem addEquivalence_idempotent_witness :
    live [some {}, some {}] 0 = true ∧ live [some {}, some {}] 1 = true ∧ (0 : Nat) ≠ 1 ∧
    ∃ h1, addEquivalence [some {}, some {}] (some 0) (some 1) = some h1 ∧
      addEquivalence h1 (some 0) (some 1) = some h1 ∧
      (linksOf [some {}, some {}] 0 = [] → linksOf [some {}, some {}] 1 = [] →
        ∃ va vb, deref h1 0 = some va ∧ deref h1 1 = some vb ∧
          equivalentVariableCount va = 1 ∧ equivalentVariableCount vb = 1) :=
  ⟨by decide, by decide, by decide,
    addEquivalence_idempotent _ 0 1 (by decide) (by decide) (by decide)⟩

/-- C3, as the code has it (the count is the raw length of the link list): for two
distinct live variables `a` and `b` with empty link lists, after
`Variable::addEquivalence(a, b)` and the destruction of `b`, `a` is still alive,
`a->equivalentVariableCount()` is 1, and the entry counted is the decayed link
(`a->getEquivalentVariable(0)` is the empty pointer). -/
theorem equivalentVariableCount_after_destroy (h : Heap) (a b : Nat)
    (ha : live h a = true) (hb : live h b = true) (hab : a ≠ b)
    (ea : linksOf h a = []) (_eb : linksOf h b = []) :
    ∃ h1 va, addEquivalence h (some a) (some b) = some h1 ∧
      deref (destroy h1 b) a = some va ∧ equivalentVariableCount va = 1 ∧
      getEquivalentVariable (destroy h1 b) va 0 = Except.ok none := by
  obtain ⟨va, hva⟩ := live_iff.mp ha
  obtain ⟨vb, hvb⟩ := live_iff.mp hb
  simp only [linksOf, hva] at ea
  have hn : hasEquivalentVariable h va (some b) = false := by
    rw [← Bool.not_eq_true, hasEquivalentVariable_iff, ea]; simp
  have hl : (setEquivalentTo h va (some b)).mPimpl.mEquivalentVariables = [some b] := by
    simp [links_setEquivalentTo, hn, ea]
  refine ⟨_, setEquivalentTo h va (some b), addEquivalence_ne hva hvb hab, ?_, ?_, ?_⟩
  · rw [deref_destroy_ne _ hab, deref_write_ne _ hab]
    exact deref_write_same _ (deref_lt hva)
  · simp [equivalentVariableCount, hl]
  · simp [getEquivalentVariable, hl, lock, live, deref_destroy_same]

/-- Witness of the amended C3: two fresh variables. -/
theorem equivalentVariableCount_after_destroy_witness :
    live [some {}, some {}] 0 = true ∧ live [some {}, some {}] 1 = true ∧
    linksOf [some {}, some {}] 0 = [] ∧ linksOf [some {}, some {}] 1 = [] ∧
    ∃ h1 va, addEquivalence [some {}, some {}] (some 0) (some 1) = some h1 ∧
      deref (destroy h1 1) 0 = some va ∧ equivalentVariableCount va = 1 ∧
      getEquivalentVariable (destroy h1 1) va 0 = Except.ok none :=
  ⟨by decide, by decide, by decide, by decide,
    equivalentVariableCount_after_destroy _ 0 1 (by decide) (by decide) (by decide)
      (by decide) (by decide)⟩

/-- Counterexample to C3: two fresh variables in cells 0 and 1 are declared
equivalent and the one of cell 1 is destroyed; the count of the one of cell 0
is 1, not 0. -/
theorem equivalentVariableCount_after_destroy_not_zero :
    ∃ h1 va, addEquivalence [some {}, some {}] (some 0) (some 1) = some h1 ∧
      deref (destroy h1 1) 0 = some va ∧ live (destroy h1 1) 1 = false ∧
      equivalentVariableCount va = 1 ∧ equivalentVariableCount va ≠ 0 :=
  ⟨[some { mPimpl := { mEquivalentVariables := [some 1] } },
    some { mPimpl := { mEquivalentVariables := [some 0] } }],
   { mPimpl := { mEquivalentVariables := [some 1] } },
   by decide, by decide, by decide, by decide, by decide⟩

/-- C4 at its failing input: the only link of the variable of cell 0 is to the
destroyed variable of cell 1, so no entry resolves to a live variable, and yet
the query with the empty pointer answers true, because the expired link locks
to the empty pointer and the two compare equal. -/
theorem hasEquivalentVariable_empty_matches_expired :
    (∀ w ∈ [some 1], lock [some { mPimpl := { mEquivalentVariables := [some 1] } }, none] w = none) ∧
    hasEquivalentVariable [some { mPimpl := { mEquivalentVariables := [some 1] } }, none]
      { mPimpl := { mEquivalentVariables := [some 1] } } none = true := by
  decide

/-- C5 at its failing input: two fresh variables are declared equivalent, the
second is destroyed, and the pointer that used to designate it is now empty;
the first variable still answers true to the query with that pointer. -/
theorem hasEquivalentVariable_after_destroy :
    ∃ h, run [] [Op.construct, Op.construct, Op.addEquivalence (some 0) (some 1),
        Op.destroy 1] = some h ∧
      live h 0 = true ∧ live h 1 = false ∧ hasEq h 0 none = true :=
  ⟨[some { mPimpl := { mEquivalentVariables := [some 1] } }, none],
    by decide, by decide, by decide, by decide⟩

/-- C6 (out-of-range positional access): `getEquivalentVariable(index)` throws
`std::out_of_range` exactly when `index` is not below
`equivalentVariableCount()`, and it returns a pointer exactly when it is; at
`index = equivalentVariableCount()` it throws. -/
theorem getEquivalentVariable_out_of_range (h : Heap) (v : Variable) (index : Nat) :
    (getEquivalentVariable h v index = Except.error Error.out_of_range ↔
      ¬ index < equivalentVariableCount v) ∧
    ((∃ r, getEquivalentVariable h v index = Except.ok r) ↔
      index < equivalentVariableCount v) ∧
    getEquivalentVariable h v (equivalentVariableCount v) =
      Except.error Error.out_of_range := by
  have key : ∀ i, i < v.mPimpl.mEquivalentVariables.length →
      getEquivalentVariable h v i =
        Except.ok (lock h (v.mPimpl.mEquivalentVariables.getD i none)) := by
    intro i hi
    simp [getEquivalentVariable, List.getElem?_eq_getElem hi, List.getD_eq_getElem _ _ hi]
  have key2 : ∀ i, ¬ i < v.mPimpl.mEquivalentVariables.length →
      getEquivalentVariable h v i = Except.error Error.out_of_range := by
    intro i hi
    simp [getEquivalentVariable, List.getElem?_eq_none (Nat.le_of_not_lt hi)]
  refine ⟨?_, ?_, key2 _ (Nat.lt_irrefl _)⟩
  · by_cases hi : index < equivalentVariableCount v
    · simp [hi, key index hi]
    · simp [hi, key2 index hi]
  · by_cases hi : index < equivalentVariableCount v
    · simp [hi, key index hi]
    · simp [hi, key2 index hi]

/-- C7 (decayed link at a valid position): for `index` below
`equivalentVariableCount()`, `getEquivalentVariable(index)` does not throw; it
returns the lock of the entry at that position, which is the variable the
entry designates when that variable is alive and the empty pointer when it has
been destroyed. -/
theorem getEquivalentVariable_in_range (h : Heap) (v : Variable) (index : Nat)
    (hi : index < equivalentVariableCount v) :
    ∃ w, v.mPimpl.mEquivalentVariables.get? index = some w ∧
      getEquivalentVariable h v index = Except.ok (lock h w) ∧
      (∀ p, w = some p → live h p = true →
        getEquivalentVariable h v index = Except.ok (some p)) ∧
      (∀ p, w = some p → live h p = false →
        getEquivalentVariable h v index = Except.ok none) := by
  have hw : v.mPimpl.mEquivalentVariables.get? index =
      some (v.mPimpl.mEquivalentVariables.get ⟨index, hi⟩) := List.get?_eq_get hi
  refine ⟨_, hw, ?_, ?_, ?_⟩
  · simp only [getEquivalentVariable, hw]
  · intro p hp hl
    simp only [getEquivalentVariable, hw, hp, lock, hl, if_true]
  · intro p hp hl
    simp only [getEquivalentVariable, hw, hp, lock, hl]
    rfl

/-- Witness of C7: position 1 of a list whose second entry has decayed. -/
theorem getEquivalentVariable_in_range_witness :
    1 < equivalentVariableCount { mPimpl := { mEquivalentVariables := [some 0, some 1] } } ∧
    ∃ w, ({ mPimpl := { mEquivalentVariables := [some 0, some 1] } } :
        Variable).mPimpl.mEquivalentVariables.get? 1 = some w ∧
      getEquivalentVariable [some {}, none]
        { mPimpl := { mEquivalentVariables := [some 0, some 1] } } 1 =
        Except.ok (lock [some {}, none] w) ∧
      (∀ p, w = some p → live [some {}, none] p = true →
        getEquivalentVariable [some {}, none]
          { mPimpl := { mEquivalentVariables := [some 0, some 1] } } 1 = Except.ok (some p)) ∧
      (∀ p, w = some p → live [some {}, none] p = false →
        getEquivalentVariable [some {}, none]
          { mPimpl := { mEquivalentVariables := [some 0, some 1] } } 1 = Except.ok none) :=
  ⟨by decide, getEquivalentVariable_in_range _ _ 1 (by decide)⟩

/-- C8 (frame of the union): for live `a` and `b`, `Variable::addEquivalence(a, b)`
leaves every cell other than those of `a` and `b` as it was, and leaves the
liveness, name, units, initial value and interface type of every cell (those
of `a` and `b` included) as they were. -/
theorem addEquivalence_frame (h : Heap) (a b : Nat)
    (ha : live h a = true) (hb : live h b = true) :
    ∃ h', addEquivalence h (some a) (some b) = some h' ∧
      (∀ q, q ≠ a → q ≠ b → deref h' q = deref h q) ∧
      (∀ q, (deref h' q).map attributes = (deref h q).map attributes) := by
  refine ⟨_, addEquivalence_eq_linkTo ha hb, ?_, ?_⟩
  · intro q hqa hqb
    rw [deref_linkTo_ne _ _ hqb, deref_linkTo_ne _ _ hqa]
  · intro q
    rw [attributes_linkTo, attributes_linkTo]

/-- Witness of C8: a store of three variables with attributes set. -/
theorem addEquivalence_frame_witness :
    live [some { mName := "x" }, some { mPimpl := { mInitialValue := "1" } },
      some { mName := "z" }] 0 = true ∧
    live [some { mName := "x" }, some { mPimpl := { mInitialValue := "1" } },
      some { mName := "z" }] 1 = true ∧
    ∃ h', addEquivalence [some { mName := "x" }, some { mPimpl := { mInitialValue := "1" } },
        some { mName := "z" }] (some 0) (some 1) = some h' ∧
      (∀ q, q ≠ 0 → q ≠ 1 → deref h' q =
        deref [some { mName := "x" }, some { mPimpl := { mInitialValue := "1" } },
          some { mName := "z" }] q) ∧
      (∀ q, (deref h' q).map attributes =
        (deref [some { mName := "x" }, some { mPimpl := { mInitialValue := "1" } },
          some { mName := "z" }] q).map attributes) :=
  ⟨by decide, by decide, addEquivalence_frame _ 0 1 (by decide) (by decide)⟩

/-! ## Preservation of the network invariant -/

theorem lock_eq_some {h : Heap} {w : VariableWeakPtr} {p : Nat} :
    lock h w = some p ↔ w = some p ∧ live h p = true := by
  cases w with
  | none => simp [lock]
  | some q =>
    by_cases hq : live h q = true
    · simp only [lock, hq, if_true, Option.some.injEq]
      constructor
      · rintro rfl; exact ⟨rfl, hq⟩
      · rintro ⟨e, _⟩; exact e
    · simp only [lock, hq, Option.some.injEq]
      constructor
      · intro e; cases e
      · rintro ⟨e, hl⟩; subst e; exact absurd hl hq

theorem mem_liveTargets {h : Heap} {q p : Nat} :
    p ∈ liveTargets h q ↔ hasEq h q (some p) = true := by
  rw [hasEq_iff]
  unfold liveTargets
  rw [List.mem_filterMap]
  constructor
  · rintro ⟨w, hw, e⟩; exact ⟨w, hw, e.symm⟩
  · rintro ⟨w, hw, e⟩; exact ⟨w, hw, e.symm⟩

theorem hasEq_congr {h h' : Heap} (hlive : ∀ q, live h' q = live h q)
    (q : Nat) (hlinks : linksOf h' q = linksOf h q) (c : VariablePtr) :
    hasEq h' q c = hasEq h q c := by
  rw [Bool.eq_iff_iff, hasEq_iff, hasEq_iff, hlinks]
  simp only [lock_congr hlive]

theorem liveTargets_congr {h h' : Heap} (hlive : ∀ q, live h' q = live h q)
    (q : Nat) (hlinks : linksOf h' q = linksOf h q) :
    liveTargets h' q = liveTargets h q := by
  unfold liveTargets
  rw [hlinks]
  exact List.filterMap_congr (fun w _ => lock_congr hlive w)

theorem network_of_same {h h' : Heap} (n : Network h) (hlen : h'.length = h.length)
    (hlive : ∀ q, live h' q = live h q) (hlinks : ∀ q, linksOf h' q = linksOf h q) :
    Network h' where
  bounded := by
    intro q w hw
    rw [hlinks] at hw
    rw [hlen]
    exact n.bounded q w hw
  simple := by
    intro q
    rw [liveTargets_congr hlive q (hlinks q)]
    exact n.simple q
  symmetric := by
    intro a b ha hb
    rw [hasEq_congr hlive a (hlinks a), hasEq_congr hlive b (hlinks b)]
    exact n.symmetric a b (by rw [← hlive]; exact ha) (by rw [← hlive]; exact hb)

theorem hasEq_linkTo {h : Heap} {p c : Nat} (hp : live h p = true) (hc : live h c = true)
    (x y : Nat) :
    hasEq (linkTo h p (some c)) x (some y) = true ↔
      hasEq h x (some y) = true ∨ (x = p ∧ y = c) := by
  rw [hasEq_iff, linksOf_linkTo _ hp]
  simp only [lock_congr (live_linkTo h p (some c))]
  split
  · rename_i hcond
    rw [hasEq_iff]
    constructor
    · rintro ⟨w, hw, e⟩
      rcases List.mem_append.mp hw with hw | hw
      · exact Or.inl ⟨w, hw, e⟩
      · rw [List.mem_singleton.mp hw, lock_some_live hc] at e
        exact Or.inr ⟨hcond.1, Option.some.inj e⟩
    · rintro (⟨w, hw, e⟩ | ⟨_, rfl⟩)
      · exact ⟨w, List.mem_append_left _ hw, e⟩
      · exact ⟨some y, List.mem_append_right _ (List.mem_singleton.mpr rfl),
          (lock_some_live hc).symm⟩
  · rename_i hcond
    constructor
    · intro hex
      exact Or.inl (hasEq_iff.mpr hex)
    · rintro (hx | ⟨rfl, rfl⟩)
      · exact hasEq_iff.mp hx
      · have : hasEq h x (some y) = true := by
          cases hh : hasEq h x (some y) with
          | true => rfl
          | false => exact absurd ⟨rfl, hh⟩ hcond
        exact hasEq_iff.mp this

theorem bounded_linkTo {h : Heap} {p c : Nat} (hp : live h p = true) (hc : live h c = true)
    (hb : ∀ q w, w ∈ linksOf h q → ∃ r, w = some r ∧ r < h.length) :
    ∀ q w, w ∈ linksOf (linkTo h p (some c)) q →
      ∃ r, w = some r ∧ r < (linkTo h p (some c)).length := by
  intro q w hw
  rw [length_linkTo]
  rw [linksOf_linkTo _ hp] at hw
  split at hw
  · rcases List.mem_append.mp hw with hw | hw
    · exact hb q w hw
    · obtain ⟨v, hv⟩ := live_iff.mp hc
      exact ⟨c, List.mem_singleton.mp hw, deref_lt hv⟩
  · exact hb q w hw

theorem simple_linkTo {h : Heap} {p c : Nat} (hp : live h p = true) (hc : live h c = true)
    (hs : ∀ q, (liveTargets h q).Nodup) :
    ∀ q, (liveTargets (linkTo h p (some c)) q).Nodup := by
  intro q
  have hcg : liveTargets (linkTo h p (some c)) q =
      (linksOf (linkTo h p (some c)) q).filterMap (lock h) := by
    unfold liveTargets
    exact List.filterMap_congr (fun w _ => lock_congr (live_linkTo h p (some c)) w)
  rw [hcg, linksOf_linkTo _ hp]
  split
  · rename_i hcond
    obtain ⟨rfl, hn⟩ := hcond
    rw [List.filterMap_append]
    have h1 : List.filterMap (lock h) [some c] = [c] := by
      simp [List.filterMap_cons, lock_some_live hc]
    rw [h1]
    have hnot : c ∉ liveTargets h q := by
      rw [mem_liveTargets, hn]; simp
    have hd : List.Disjoint (liveTargets h q) [c] := by
      intro x hx hx2
      rw [List.mem_singleton.mp hx2] at hx
      exact hnot hx
    exact List.Nodup.append (hs q) (List.nodup_singleton c) hd
  · exact hs q

theorem network_addEquivalence {h : Heap} (n : Network h) {a b : Nat}
    (ha : live h a = true) (hb : live h b = true) :
    Network (linkTo (linkTo h a (some b)) b (some a)) := by
  have hb1 : live (linkTo h a (some b)) b = true := by rw [live_linkTo]; exact hb
  have ha1 : live (linkTo h a (some b)) a = true := by rw [live_linkTo]; exact ha
  refine ⟨?_, ?_, ?_⟩
  · exact bounded_linkTo hb1 ha1 (bounded_linkTo ha hb n.bounded)
  · exact simple_linkTo hb1 ha1 (simple_linkTo ha hb n.simple)
  · intro x y hx hy
    rw [live_linkTo, live_linkTo] at hx hy
    have hsym := n.symmetric x y hx hy
    rw [Bool.eq_iff_iff, hasEq_linkTo hb1 ha1, hasEq_linkTo hb1 ha1,
      hasEq_linkTo ha hb, hasEq_linkTo ha hb, hsym]
    constructor
    · rintro ((hh | ⟨e1, e2⟩) | ⟨e1, e2⟩)
      · exact Or.inl (Or.inl hh)
      · exact Or.inr ⟨e2, e1⟩
      · exact Or.inl (Or.inr ⟨e2, e1⟩)
    · rintro ((hh | ⟨e1, e2⟩) | ⟨e1, e2⟩)
      · exact Or.inl (Or.inl hh)
      · exact Or.inr ⟨e2, e1⟩
      · exact Or.inl (Or.inr ⟨e2, e1⟩)

theorem length_destroy (h : Heap) (p : Nat) : (destroy h p).length = h.length := by
  simp [destroy]

theorem live_destroy (h : Heap) (p q : Nat) :
    live (destroy h p) q = (live h q && decide (q ≠ p)) := by
  by_cases hq : q = p
  · subst hq; simp [live, deref_destroy_same]
  · simp [live, deref_destroy_ne h hq, hq]

theorem linksOf_destroy (h : Heap) (p q : Nat) :
    linksOf (destroy h p) q = if q = p then [] else linksOf h q := by
  by_cases hq : q = p
  · subst hq; simp [linksOf, deref_destroy_same]
  · simp [linksOf, deref_destroy_ne h hq, hq]

theorem lock_destroy_eq_some {h : Heap} {p : Nat} {w : VariableWeakPtr} {y : Nat} :
    lock (destroy h p) w = some y ↔ lock h w = some y ∧ y ≠ p := by
  rw [lock_eq_some, lock_eq_some, live_destroy]
  simp only [Bool.and_eq_true, decide_eq_true_eq]
  tauto

theorem filterMap_lock_destroy (h : Heap) (p : Nat) (l : List VariableWeakPtr) :
    (l.filterMap (lock (destroy h p))).Sublist (l.filterMap (lock h)) := by
  induction l with
  | nil => simp
  | cons w l ih =>
    cases hw : lock (destroy h p) w with
    | none =>
      rw [List.filterMap_cons_none hw]
      cases hw2 : lock h w with
      | none => rw [List.filterMap_cons_none hw2]; exact ih
      | some y => rw [List.filterMap_cons_some hw2]; exact List.Sublist.cons _ ih
    | some y =>
      rw [List.filterMap_cons_some hw, List.filterMap_cons_some (lock_destroy_eq_some.mp hw).1]
      exact List.Sublist.cons₂ _ ih

theorem network_destroy {h : Heap} (n : Network h) (p : Nat) : Network (destroy h p) where
  bounded := by
    intro q w hw
    rw [length_destroy]
    rw [linksOf_destroy] at hw
    split at hw
    · simp at hw
    · exact n.bounded q w hw
  simple := by
    intro q
    unfold liveTargets
    rw [linksOf_destroy]
    split
    · simp
    · exact List.Nodup.sublist (filterMap_lock_destroy h p _) (n.simple q)
  symmetric := by
    intro a b ha hb
    rw [live_destroy] at ha hb
    simp only [Bool.and_eq_true, decide_eq_true_eq] at ha hb
    have key : ∀ x y, x ≠ p → y ≠ p →
        (hasEq (destroy h p) x (some y) = true ↔ hasEq h x (some y) = true) := by
      intro x y hx hy
      rw [hasEq_iff, hasEq_iff, linksOf_destroy, if_neg hx]
      constructor
      · rintro ⟨w, hw, e⟩
        exact ⟨w, hw, ((lock_destroy_eq_some.mp e.symm).1).symm⟩
      · rintro ⟨w, hw, e⟩
        exact ⟨w, hw, (lock_destroy_eq_some.mpr ⟨e.symm, hy⟩).symm⟩
    rw [Bool.eq_iff_iff, key a b ha.2 hb.2, key b a hb.2 ha.2, n.symmetric a b ha.1 hb.1]

theorem length_alloc (h : Heap) (v : Variable) : (alloc h v).length = h.length + 1 := by
  simp [alloc]

theorem deref_alloc_lt {h : Heap} (v : Variable) {q : Nat} (hq : q < h.length) :
    deref (alloc h v) q = deref h q := by
  simp [deref, alloc, List.getElem?_append_left hq]

theorem deref_alloc_length (h : Heap) (v : Variable) :
    deref (alloc h v) h.length = some v := by
  simp [deref, alloc]

theorem deref_eq_none_of_le {h : Heap} {q : Nat} (hq : h.length ≤ q) : deref h q = none := by
  simp [deref, List.getElem?_eq_none hq]

theorem linksOf_alloc_new (h : Heap) (q : Nat) :
    linksOf (alloc h Variable.new) q = linksOf h q := by
  rcases Nat.lt_trichotomy q h.length with hq | hq | hq
  · simp [linksOf, deref_alloc_lt _ hq]
  · subst hq
    simp [linksOf, deref_alloc_length, deref_eq_none_of_le (Nat.le_refl _), Variable.new]
  · have h1 : (alloc h Variable.new).length ≤ q := by rw [length_alloc]; omega
    simp [linksOf, deref_eq_none_of_le h1, deref_eq_none_of_le (Nat.le_of_lt hq)]

theorem live_alloc_lt {h : Heap} (v : Variable) {q : Nat} (hq : q < h.length) :
    live (alloc h v) q = live h q := by
  simp [live, deref_alloc_lt v hq]

theorem lock_alloc_of_bounded {h : Heap} (v : Variable) {w : VariableWeakPtr}
    (hw : ∃ r, w = some r ∧ r < h.length) : lock (alloc h v) w = lock h w := by
  obtain ⟨r, rfl, hr⟩ := hw
  simp [lock, live_alloc_lt v hr]

theorem network_alloc_new {h : Heap} (n : Network h) : Network (alloc h Variable.new) where
  bounded := by
    intro q w hw
    rw [linksOf_alloc_new] at hw
    obtain ⟨r, e, hr⟩ := n.bounded q w hw
    exact ⟨r, e, by rw [length_alloc]; omega⟩
  simple := by
    intro q
    have e : liveTargets (alloc h Variable.new) q = liveTargets h q := by
      unfold liveTargets
      rw [linksOf_alloc_new]
      exact List.filterMap_congr (fun w hw => lock_alloc_of_bounded _ (n.bounded q w hw))
    rw [e]
    exact n.simple q
  symmetric := by
    intro a b ha hb
    have key : ∀ x y, live (alloc h Variable.new) x = true → live (alloc h Variable.new) y = true →
        hasEq (alloc h Variable.new) x (some y) = true →
        hasEq (alloc h Variable.new) y (some x) = true := by
      intro x y _ hy hxy
      rw [hasEq_iff, linksOf_alloc_new] at hxy
      obtain ⟨w, hw, e⟩ := hxy
      have hbw := n.bounded x w hw
      rw [lock_alloc_of_bounded _ hbw] at e
      have hly : live h y = true := (lock_eq_some.mp e.symm).2
      have hx' : hasEq h x (some y) = true := hasEq_iff.mpr ⟨w, hw, e⟩
      have hlx : live h x = true := by
        cases hd : deref h x with
        | none => simp [hasEq, hd] at hx'
        | some v => exact live_iff.mpr ⟨v, hd⟩
      have hyx : hasEq h y (some x) = true := by rw [← n.symmetric x y hlx hly]; exact hx'
      rw [hasEq_iff] at hyx ⊢
      obtain ⟨w2, hw2, e2⟩ := hyx
      refine ⟨w2, by rw [linksOf_alloc_new]; exact hw2, ?_⟩
      rw [lock_alloc_of_bounded _ (n.bounded y w2 hw2)]
      exact e2
    rw [Bool.eq_iff_iff]
    exact ⟨key a b ha hb, key b a hb ha⟩

theorem update_same {h h' : Heap} {self : VariablePtr} {f : Variable → Variable}
    (hu : update h self f = some h')
    (hf : ∀ v, (f v).mPimpl.mEquivalentVariables = v.mPimpl.mEquivalentVariables) :
    h'.length = h.length ∧ (∀ q, live h' q = live h q) ∧
      (∀ q, linksOf h' q = linksOf h q) := by
  cases self with
  | none => simp [update] at hu
  | some p =>
    cases hv : deref h p with
    | none => simp [update, hv] at hu
    | some v =>
      simp only [update, hv, Option.map_some', Option.some.injEq] at hu
      subst hu
      have hp : live h p = true := live_iff.mpr ⟨v, hv⟩
      refine ⟨length_write _ _ _, live_write _ hp, ?_⟩
      intro q
      by_cases hq : q = p
      · subst hq
        simp [linksOf, deref_write_same _ (deref_lt hv), hv, hf]
      · simp [linksOf, deref_write_ne _ hq]

theorem network_update {h h' : Heap} (n : Network h) {self : VariablePtr}
    {f : Variable → Variable} (hu : update h self f = some h')
    (hf : ∀ v, (f v).mPimpl.mEquivalentVariables = v.mPimpl.mEquivalentVariables) :
    Network h' :=
  network_of_same n (update_same hu hf).1 (update_same hu hf).2.1 (update_same hu hf).2.2

theorem addEquivalence_defined {h h' : Heap} {variable1 variable2 : VariablePtr}
    (hap : addEquivalence h variable1 variable2 = some h') :
    ∃ a b, variable1 = some a ∧ variable2 = some b ∧ live h a = true ∧ live h b = true := by
  cases variable1 with
  | none => simp [addEquivalence] at hap
  | some a =>
    cases variable2 with
    | none => simp [addEquivalence] at hap
    | some b =>
      cases hva : deref h a with
      | none => simp [addEquivalence, hva] at hap
      | some va =>
        have hla : live h a = true := live_iff.mpr ⟨va, hva⟩
        cases hvb : deref (write h a (setEquivalentTo h va (some b))) b with
        | none => simp [addEquivalence, hva, hvb] at hap
        | some vb =>
          refine ⟨a, b, rfl, rfl, hla, ?_⟩
          rw [← live_write (setEquivalentTo h va (some b)) hla b]
          exact live_iff.mpr ⟨vb, hvb⟩

theorem network_step {h h' : Heap} (n : Network h) {op : Op} (hop : op.isCopy = false)
    (hap : Op.apply h op = some h') : Network h' := by
  cases op with
  | construct =>
    simp only [Op.apply, Option.some.injEq] at hap
    subst hap
    exact network_alloc_new n
  | copyConstruct src => simp [Op.isCopy] at hop
  | assign dst src => simp [Op.isCopy] at hop
  | setName self name => exact network_update n hap (fun _ => rfl)
  | setUnits self u => exact network_update n hap (fun _ => rfl)
  | setInitialValue self s => exact network_update n hap (fun _ => rfl)
  | setInitialValueDouble self s => exact network_update n hap (fun _ => rfl)
  | setInitialValueVariable self v =>
    simp only [Op.apply] at hap
    cases ho : v.bind (deref h) with
    | none => simp [ho] at hap
    | some o =>
      simp only [ho, Option.some_bind] at hap
      exact network_update n hap (fun _ => rfl)
  | setInterfaceType self t => exact network_update n hap (fun _ => rfl)
  | addEquivalence variable1 variable2 =>
    simp only [Op.apply] at hap
    obtain ⟨a, b, rfl, rfl, ha, hb⟩ := addEquivalence_defined hap
    rw [addEquivalence_eq_linkTo ha hb, Option.some.injEq] at hap
    subst hap
    exact network_addEquivalence n ha hb
  | destroy p =>
    simp only [Op.apply, Option.some.injEq] at hap
    subst hap
    exact network_destroy n p

theorem network_run (ops : List Op) :
    ∀ {h h' : Heap}, Network h → (∀ op ∈ ops, op.isCopy = false) →
      run h ops = some h' → Network h' := by
  induction ops with
  | nil =>
    intro h h' n _ hr
    simp only [run, Option.some.injEq] at hr
    subst hr
    exact n
  | cons op ops ih =>
    intro h h' n hops hr
    simp only [run] at hr
    cases hap : Op.apply h op with
    | none => simp [hap] at hr
    | some h1 =>
      simp only [hap, Option.some_bind] at hr
      exact ih (network_step n (hops op (List.mem_cons_self _ _)) hap)
        (fun o ho => hops o (List.mem_cons_of_mem _ ho)) hr

theorem linksOf_of_emptyLinks {h : Heap} (he : emptyLinks h = true) (q : Nat) :
    linksOf h q = [] := by
  unfold linksOf
  cases hv : deref h q with
  | none => rfl
  | some v =>
    have hlt := deref_lt hv
    have hmem : some v ∈ h := by
      have hq : h[q]? = some (some v) := by
        simp only [deref, List.get?_eq_getElem?] at hv
        cases hx : h[q]? with
        | none => simp [hx] at hv
        | some x => simp [hx] at hv; simp [hv]
      exact List.getElem?_mem hq
    have := List.all_eq_true.mp he (some v) hmem
    simpa using this

theorem network_of_emptyLinks {h : Heap} (he : emptyLinks h = true) : Network h where
  bounded := by
    intro q w hw
    rw [linksOf_of_emptyLinks he] at hw
    simp at hw
  simple := by
    intro q
    simp [liveTargets, linksOf_of_emptyLinks he]
  symmetric := by
    intro a b _ _
    have e : ∀ x y, hasEq h x (some y) = false := by
      intro x y
      rw [← Bool.not_eq_true, hasEq_iff, linksOf_of_emptyLinks he]
      simp
    rw [e, e]

theorem isCopy_of_isUnionOrDestroy {op : Op} (hop : op.isUnionOrDestroy = true) :
    op.isCopy = false := by
  cases op <;> simp [Op.isUnionOrDestroy] at hop <;> rfl

theorem count_links_eq_count_liveTargets {h : Heap} {a : Nat} (ha : live h a = true)
    (l : List VariableWeakPtr) :
    l.count (some a) = (l.filterMap (lock h)).count a := by
  induction l with
  | nil => rfl
  | cons w l ih =>
    cases hw : lock h w with
    | none =>
      have hne : w ≠ some a := by
        intro e
        rw [e, lock_some_live ha] at hw
        cases hw
      rw [List.filterMap_cons_none hw, List.count_cons_of_ne (Ne.symm hne), ih]
    | some r =>
      have hwr : w = some r := (lock_eq_some.mp hw).1
      rw [List.filterMap_cons_some hw, hwr]
      by_cases hr : r = a
      · subst hr
        rw [List.count_cons_self, List.count_cons_self, ih]
      · have hne : (some a : VariableWeakPtr) ≠ some r :=
          fun e => hr (Option.some.inj e).symm
        rw [List.count_cons_of_ne hne, List.count_cons_of_ne (Ne.symm hr), ih]

theorem linksOf_step {h h' : Heap} {op : Op} (hop : op.isCopy = false)
    (hne : ∀ variable1 variable2, op ≠ Op.addEquivalence variable1 variable2)
    (hap : Op.apply h op = some h') (q : Nat) (hq : live h' q = true) :
    linksOf h' q = linksOf h q := by
  cases op with
  | construct =>
    simp only [Op.apply, Option.some.injEq] at hap
    subst hap
    exact linksOf_alloc_new h q
  | copyConstruct src => simp [Op.isCopy] at hop
  | assign dst src => simp [Op.isCopy] at hop
  | setName self name => exact (update_same hap (fun _ => rfl)).2.2 q
  | setUnits self u => exact (update_same hap (fun _ => rfl)).2.2 q
  | setInitialValue self s => exact (update_same hap (fun _ => rfl)).2.2 q
  | setInitialValueDouble self s => exact (update_same hap (fun _ => rfl)).2.2 q
  | setInitialValueVariable self v =>
    simp only [Op.apply] at hap
    cases ho : v.bind (deref h) with
    | none => simp [ho] at hap
    | some o =>
      simp only [ho, Option.some_bind] at hap
      exact (update_same hap (fun _ => rfl)).2.2 q
  | setInterfaceType self t => exact (update_same hap (fun _ => rfl)).2.2 q
  | addEquivalence variable1 variable2 => exact absurd rfl (hne variable1 variable2)
  | destroy p =>
    simp only [Op.apply, Option.some.injEq] at hap
    subst hap
    rw [live_destroy] at hq
    simp only [Bool.and_eq_true, decide_eq_true_eq] at hq
    rw [linksOf_destroy, if_neg hq.2]

/-- C9 (simple-graph invariant): in every store reached from one whose link lists
are all empty by `Variable::addEquivalence` calls and destructions, the live
variables that the links of any one variable resolve to are pairwise distinct
(no two entries resolve to the same live variable); and in such a store
`Variable::addEquivalence(a, a)` on a live `a` is defined and leaves exactly
one entry designating `a` in the link list of `a`. -/
theorem link_lists_simple (h0 : Heap) (ops : List Op) (h : Heap)
    (he : emptyLinks h0 = true) (hops : ∀ op ∈ ops, op.isUnionOrDestroy = true)
    (hr : run h0 ops = some h) :
    (∀ q, (liveTargets h q).Nodup) ∧
    (∀ a, live h a = true →
      ∃ h', addEquivalence h (some a) (some a) = some h' ∧
        (linksOf h' a).count (some a) = 1) := by
  have n : Network h := network_run ops (network_of_emptyLinks he)
    (fun op ho => isCopy_of_isUnionOrDestroy (hops op ho)) hr
  refine ⟨n.simple, ?_⟩
  intro a ha
  refine ⟨_, addEquivalence_eq_linkTo ha ha, ?_⟩
  have n' := network_addEquivalence n ha ha
  have ha1 : live (linkTo h a (some a)) a = true := by rw [live_linkTo]; exact ha
  have ha2 : live (linkTo (linkTo h a (some a)) a (some a)) a = true := by
    rw [live_linkTo]; exact ha1
  have hm : a ∈ liveTargets (linkTo (linkTo h a (some a)) a (some a)) a := by
    rw [mem_liveTargets, hasEq_linkTo ha1 ha1]
    exact Or.inr ⟨rfl, rfl⟩
  have hc := List.count_eq_one_of_mem (n'.simple a) hm
  rw [count_links_eq_count_liveTargets ha2]
  exact hc

/-- Witness of C9: three fresh variables, the union declared twice (in both
orders), one variable destroyed, then the union with the destroyed variable's
former partner repeated. -/
theorem link_lists_simple_witness :
    emptyLinks [some {}, some {}, some {}] = true ∧
    (∀ op ∈ [Op.addEquivalence (some 0) (some 1), Op.addEquivalence (some 1) (some 0),
        Op.addEquivalence (some 0) (some 2), Op.destroy 2,
        Op.addEquivalence (some 1) (some 0)], op.isUnionOrDestroy = true) ∧
    ∃ h, run [some {}, some {}, some {}]
        [Op.addEquivalence (some 0) (some 1), Op.addEquivalence (some 1) (some 0),
          Op.addEquivalence (some 0) (some 2), Op.destroy 2,
          Op.addEquivalence (some 1) (some 0)] = some h ∧
      linksOf h 0 = [some 1, some 2] ∧
      (∀ q, (liveTargets h q).Nodup) ∧
      (∀ a, live h a = true →
        ∃ h', addEquivalence h (some a) (some a) = some h' ∧
          (linksOf h' a).count (some a) = 1) :=
  ⟨by decide, by decide,
    [some { mPimpl := { mEquivalentVariables := [some 1, some 2] } },
      some { mPimpl := { mEquivalentVariables := [some 0] } }, none],
    by decide, by decide,
    link_lists_simple [some {}, some {}, some {}]
      [Op.addEquivalence (some 0) (some 1), Op.addEquivalence (some 1) (some 0),
        Op.addEquivalence (some 0) (some 2), Op.destroy 2,
        Op.addEquivalence (some 1) (some 0)]
      [some { mPimpl := { mEquivalentVariables := [some 1, some 2] } },
        some { mPimpl := { mEquivalentVariables := [some 0] } }, none]
      (by decide) (by decide) (by decide)⟩

/-- C10, as the code has it: in every store reached from the empty store by
construction, the setters, `Variable::addEquivalence` and destruction (no copy
construction, no assignment), membership is symmetric between live variables;
and of these operations only `Variable::addEquivalence` changes the link list
of a variable that is alive afterwards or makes a variable with a non-empty
link list. -/
theorem symmetry_without_copy (ops : List Op) (h : Heap)
    (hops : ∀ op ∈ ops, op.isCopy = false) (hr : run [] ops = some h) :
    (∀ a b, live h a = true → live h b = true →
      hasEq h a (some b) = hasEq h b (some a)) ∧
    (∀ op h', op.isCopy = false →
      (∀ variable1 variable2, op ≠ Op.addEquivalence variable1 variable2) →
      Op.apply h op = some h' →
      ∀ q, live h' q = true → linksOf h' q = linksOf h q) := by
  have n : Network h := network_run ops (network_of_emptyLinks (by decide)) hops hr
  exact ⟨n.symmetric, fun op h' hop hne hap q hq => linksOf_step hop hne hap q hq⟩

/-- Witness of the amended C10: two variables are made, one is named, they are
declared equivalent, the initial value of one is set from the other, and a
third variable is made. -/
theorem symmetry_without_copy_witness :
    (∀ op ∈ [Op.construct, Op.construct, Op.setName (some 0) "x",
        Op.addEquivalence (some 0) (some 1), Op.setInitialValueVariable (some 1) (some 0),
        Op.construct], op.isCopy = false) ∧
    ∃ h, run [] [Op.construct, Op.construct, Op.setName (some 0) "x",
        Op.addEquivalence (some 0) (some 1), Op.setInitialValueVariable (some 1) (some 0),
        Op.construct] = some h ∧
      hasEq h 0 (some 1) = true ∧
      (∀ a b, live h a = true → live h b = true →
        hasEq h a (some b) = hasEq h b (some a)) ∧
      (∀ op h', op.isCopy = false →
        (∀ variable1 variable2, op ≠ Op.addEquivalence variable1 variable2) →
        Op.apply h op = some h' →
        ∀ q, live h' q = true → linksOf h' q = linksOf h q) :=
  ⟨by decide,
    [some { mName := "x", mPimpl := { mEquivalentVariables := [some 1] } },
      some { mPimpl := { mEquivalentVariables := [some 0], mInitialValue := "x" } },
      some {}],
    by decide, by decide,
    symmetry_without_copy
      [Op.construct, Op.construct, Op.setName (some 0) "x",
        Op.addEquivalence (some 0) (some 1), Op.setInitialValueVariable (some 1) (some 0),
        Op.construct]
      [some { mName := "x", mPimpl := { mEquivalentVariables := [some 1] } },
        some { mPimpl := { mEquivalentVariables := [some 0], mInitialValue := "x" } },
        some {}]
      (by decide) (by decide)⟩

/-- Counterexample to C10: two variables are made and declared equivalent, then
the first is copy-constructed into cell 2.  The copy constructor, not
`Variable::addEquivalence`, has made a variable with a non-empty link list,
and the copy lists the variable of cell 1 while that variable does not list
the copy.  Assigning the first variable to a third one has the same effect. -/
theorem symmetry_broken_by_copy :
    (∃ h, run [] [Op.construct, Op.construct, Op.addEquivalence (some 0) (some 1),
        Op.copyConstruct (some 0)] = some h ∧
      live h 2 = true ∧ live h 1 = true ∧ linksOf h 2 = [some 1] ∧
      hasEq h 2 (some 1) = true ∧ hasEq h 1 (some 2) = false) ∧
    (∃ h, run [] [Op.construct, Op.construct, Op.construct,
        Op.addEquivalence (some 0) (some 1), Op.assign (some 2) (some 0)] = some h ∧
      live h 2 = true ∧ live h 1 = true ∧ linksOf h 2 = [some 1] ∧
      hasEq h 2 (some 1) = true ∧ hasEq h 1 (some 2) = false) :=
  ⟨⟨[some { mPimpl := { mEquivalentVariables := [some 1] } },
      some { mPimpl := { mEquivalentVariables := [some 0] } },
      some { mPimpl := { mEquivalentVariables := [some 1] } }],
      by decide, by decide, by decide, by decide, by decide, by decide⟩,
   ⟨[some { mPimpl := { mEquivalentVariables := [some 1] } },
      some { mPimpl := { mEquivalentVariables := [some 0] } },
      some { mPimpl := { mEquivalentVariables := [some 1] } }],
      by decide, by decide, by decide, by decide, by decide, by decide⟩⟩

/-! ## Counting, serialising, initial values, insertion order, copies -/

/-- C11 (literal count policy): `equivalentVariableCount()` is the raw length of
the link list, the entries that resolve to a live variable and the decayed
ones together; and destroying any other variable `p` leaves the object of
`a`, hence its count, as it was. -/
theorem equivalentVariableCount_raw (h : Heap) (p a : Nat) (va : Variable)
    (hne : a ≠ p) (hva : deref h a = some va) :
    equivalentVariableCount va = va.mPimpl.mEquivalentVariables.length ∧
    equivalentVariableCount va =
      va.mPimpl.mEquivalentVariables.countP (fun w => (lock h w).isSome) +
      va.mPimpl.mEquivalentVariables.countP (fun w => (lock h w).isNone) ∧
    deref (destroy h p) a = some va := by
  refine ⟨rfl, ?_, ?_⟩
  · have e := List.length_eq_countP_add_countP (fun w => (lock h w).isSome)
      va.mPimpl.mEquivalentVariables
    have hf : (fun w => decide ¬ (fun w => (lock h w).isSome) w = true) =
        (fun w => (lock h w).isNone) := by
      funext w
      cases hl : lock h w <;> simp [hl]
    rw [hf] at e
    exact e
  · rw [deref_destroy_ne h hne]; exact hva

/-- Witness of C11: the variable of cell 0 links to the one of cell 1, which is
then destroyed. -/
theorem equivalentVariableCount_raw_witness :
    (0 : Nat) ≠ 1 ∧
    deref [some { mPimpl := { mEquivalentVariables := [some 1] } },
      some { mPimpl := { mEquivalentVariables := [some 0] } }] 0 =
      some { mPimpl := { mEquivalentVariables := [some 1] } } ∧
    equivalentVariableCount { mPimpl := { mEquivalentVariables := [some 1] } } =
      ({ mPimpl := { mEquivalentVariables := [some 1] } } :
        Variable).mPimpl.mEquivalentVariables.length ∧
    equivalentVariableCount { mPimpl := { mEquivalentVariables := [some 1] } } =
      ({ mPimpl := { mEquivalentVariables := [some 1] } } :
        Variable).mPimpl.mEquivalentVariables.countP
        (fun w => (lock [some { mPimpl := { mEquivalentVariables := [some 1] } },
          some { mPimpl := { mEquivalentVariables := [some 0] } }] w).isSome) +
      ({ mPimpl := { mEquivalentVariables := [some 1] } } :
        Variable).mPimpl.mEquivalentVariables.countP
        (fun w => (lock [some { mPimpl := { mEquivalentVariables := [some 1] } },
          some { mPimpl := { mEquivalentVariables := [some 0] } }] w).isNone) ∧
    deref (destroy [some { mPimpl := { mEquivalentVariables := [some 1] } },
      some { mPimpl := { mEquivalentVariables := [some 0] } }] 1) 0 =
      some { mPimpl := { mEquivalentVariables := [some 1] } } :=
  ⟨by decide, by decide,
    equivalentVariableCount_raw
      [some { mPimpl := { mEquivalentVariables := [some 1] } },
        some { mPimpl := { mEquivalentVariables := [some 0] } }]
      1 0 { mPimpl := { mEquivalentVariables := [some 1] } } (by decide) (by decide)⟩

theorem length_ne_zero_iff (s : String) : s.length ≠ 0 ↔ s ≠ "" := by
  cases s with
  | mk l =>
    cases l with
    | nil => simp [String.length]
    | cons c l =>
      simp only [String.length, List.length_cons, ne_eq, Nat.add_one_ne_zero,
        not_false_eq_true, true_iff]
      intro e
      have := congrArg String.data e
      simp at this

/-- C12 (textual form of a variable): `doSerialisation(FORMAT_XML)` is
`<variable`, then the name attribute exactly when the name is not empty, the
units attribute exactly when units are set, the initial value attribute
exactly when it is not empty, the interface attribute exactly when the
interface type is not none (with the text private, public or
public_and_private), then `/>`; a default-constructed variable gives
`<variable/>`. -/
theorem doSerialisation_xml (v : Variable) :
    doSerialisation v FORMATS.FORMAT_XML =
      variableElement (getName v) ((getUnits v).map Units.getName) (getInitialValue v)
        (getInterfaceType v) ∧
    doSerialisation Variable.new FORMATS.FORMAT_XML = "<variable/>" := by
  refine ⟨?_, by decide⟩
  unfold doSerialisation variableElement
  simp only [if_true, String.empty_append]
  have hn := length_ne_zero_iff (getName v)
  have hi := length_ne_zero_iff (getInitialValue v)
  by_cases h1 : getName v = "" <;> by_cases h3 : getInitialValue v = "" <;>
    cases h2 : getUnits v <;> cases h4 : getInterfaceType v <;>
    simp [h1, h3, hn, hi, interfaceTypeToString, Units.getName, String.append_assoc] <;>
    try rfl

theorem doSerialisation_full :
    doSerialisation
      { mName := "x",
        mPimpl := { mInitialValue := "1",
                    mInterfaceType := INTERFACE_TYPES.INTERFACE_TYPE_PUBLIC,
                    mUnits := some { mName := "mV" } } }
      FORMATS.FORMAT_XML =
      "<variable name=\"x\" units=\"mV\" initial_value=\"1\" interface=\"public\"/>" := by
  decide

/-- C18 (initial value accessors): after `setInitialValue(s)` the getter returns
`s`; after `setInitialValue(v)` it returns the name of `v`; in both cases the
link list, the units and the interface type are as before. -/
theorem getInitialValue_setInitialValue (self v : Variable) (s : String) :
    (getInitialValue (setInitialValue self s) = s ∧
      (setInitialValue self s).mPimpl.mEquivalentVariables =
        self.mPimpl.mEquivalentVariables ∧
      getUnits (setInitialValue self s) = getUnits self ∧
      getInterfaceType (setInitialValue self s) = getInterfaceType self) ∧
    (getInitialValue (setInitialValueVariable self v) = getName v ∧
      (setInitialValueVariable self v).mPimpl.mEquivalentVariables =
        self.mPimpl.mEquivalentVariables ∧
      getUnits (setInitialValueVariable self v) = getUnits self ∧
      getInterfaceType (setInitialValueVariable self v) = getInterfaceType self) :=
  ⟨⟨rfl, rfl, rfl, rfl⟩, ⟨rfl, rfl, rfl, rfl⟩⟩

theorem linksOf_eq_of_deref {h : Heap} {p : Nat} {v : Variable} (hv : deref h p = some v) :
    linksOf h p = v.mPimpl.mEquivalentVariables := by
  simp [linksOf, hv]

theorem linksOf_addEquivalence_left {h : Heap} {a b : Nat}
    (ha : live h a = true) (hb : live h b = true) :
    linksOf (linkTo (linkTo h a (some b)) b (some a)) a =
      if hasEq h a (some b) = false then linksOf h a ++ [some b] else linksOf h a := by
  have ha1 : live (linkTo h a (some b)) a = true := by rw [live_linkTo]; exact ha
  have hb1 : live (linkTo h a (some b)) b = true := by rw [live_linkTo]; exact hb
  rw [linksOf_linkTo _ hb1]
  have hcond : ¬ (a = b ∧ hasEq (linkTo h a (some b)) b (some a) = false) := by
    rintro ⟨e, hf⟩
    subst e
    have ht : hasEq (linkTo h a (some a)) a (some a) = true :=
      (hasEq_linkTo ha ha a a).mpr (Or.inr ⟨rfl, rfl⟩)
    rw [ht] at hf
    cases hf
  rw [if_neg hcond, linksOf_linkTo _ ha]
  simp

/-- C19 (insertion order of links): for live `a` and `b`, when no link of `a`
resolves to `b`, `Variable::addEquivalence(a, b)` makes the count of `a` one
larger, `a->getEquivalentVariable(count - 1)` returns `b`, and every earlier
position holds the entry it held before; when a link of `a` already resolves
to `b`, the link list of `a` is as before. -/
theorem addEquivalence_appends (h : Heap) (a b : Nat) (va : Variable)
    (hva : deref h a = some va) (hb : live h b = true) :
    ∃ h' va', addEquivalence h (some a) (some b) = some h' ∧ deref h' a = some va' ∧
      (hasEquivalentVariable h va (some b) = false →
        equivalentVariableCount va' = equivalentVariableCount va + 1 ∧
        getEquivalentVariable h' va' (equivalentVariableCount va' - 1) =
          Except.ok (some b) ∧
        ∀ i, i < equivalentVariableCount va →
          va'.mPimpl.mEquivalentVariables.get? i = va.mPimpl.mEquivalentVariables.get? i) ∧
      (hasEquivalentVariable h va (some b) = true →
        va'.mPimpl.mEquivalentVariables = va.mPimpl.mEquivalentVariables) := by
  have ha : live h a = true := live_iff.mpr ⟨va, hva⟩
  have ha2 : live (linkTo (linkTo h a (some b)) b (some a)) a = true := by
    rw [live_linkTo, live_linkTo]; exact ha
  have hb2 : live (linkTo (linkTo h a (some b)) b (some a)) b = true := by
    rw [live_linkTo, live_linkTo]; exact hb
  obtain ⟨va', hva'⟩ := live_iff.mp ha2
  have hl := linksOf_addEquivalence_left ha hb
  rw [linksOf_eq_of_deref hva', linksOf_eq_of_deref hva] at hl
  have hh : hasEq h a (some b) = hasEquivalentVariable h va (some b) := by
    simp [hasEq, hva]
  rw [hh] at hl
  refine ⟨_, va', addEquivalence_eq_linkTo ha hb, hva', ?_, ?_⟩
  · intro hf
    rw [if_pos hf] at hl
    refine ⟨?_, ?_, ?_⟩
    · simp [equivalentVariableCount, hl]
    · simp [getEquivalentVariable, equivalentVariableCount, hl, lock_some_live hb2]
    · intro i hi
      simp only [equivalentVariableCount] at hi
      simp only [hl, List.get?_eq_getElem?]
      exact List.getElem?_append_left hi
  · intro ht
    rw [ht] at hl
    simpa using hl

/-- Witness of C19: the variable of cell 0 already links to the one of cell 2;
it is declared equivalent to the one of cell 1. -/
theorem addEquivalence_appends_witness :
    deref [some { mPimpl := { mEquivalentVariables := [some 2] } }, some {},
      some { mPimpl := { mEquivalentVariables := [some 0] } }] 0 =
      some { mPimpl := { mEquivalentVariables := [some 2] } } ∧
    live [some { mPimpl := { mEquivalentVariables := [some 2] } }, some {},
      some { mPimpl := { mEquivalentVariables := [some 0] } }] 1 = true ∧
    ∃ h' va', addEquivalence [some { mPimpl := { mEquivalentVariables := [some 2] } },
        some {}, some { mPimpl := { mEquivalentVariables := [some 0] } }]
        (some 0) (some 1) = some h' ∧ deref h' 0 = some va' ∧
      (hasEquivalentVariable [some { mPimpl := { mEquivalentVariables := [some 2] } },
          some {}, some { mPimpl := { mEquivalentVariables := [some 0] } }]
          { mPimpl := { mEquivalentVariables := [some 2] } } (some 1) = false →
        equivalentVariableCount va' =
          equivalentVariableCount { mPimpl := { mEquivalentVariables := [some 2] } } + 1 ∧
        getEquivalentVariable h' va' (equivalentVariableCount va' - 1) =
          Except.ok (some 1) ∧
        ∀ i, i < equivalentVariableCount { mPimpl := { mEquivalentVariables := [some 2] } } →
          va'.mPimpl.mEquivalentVariables.get? i =
            ({ mPimpl := { mEquivalentVariables := [some 2] } } :
              Variable).mPimpl.mEquivalentVariables.get? i) ∧
      (hasEquivalentVariable [some { mPimpl := { mEquivalentVariables := [some 2] } },
          some {}, some { mPimpl := { mEquivalentVariables := [some 0] } }]
          { mPimpl := { mEquivalentVariables := [some 2] } } (some 1) = true →
        va'.mPimpl.mEquivalentVariables =
          ({ mPimpl := { mEquivalentVariables := [some 2] } } :
            Variable).mPimpl.mEquivalentVariables) :=
  ⟨by decide, by decide,
    addEquivalence_appends
      [some { mPimpl := { mEquivalentVariables := [some 2] } }, some {},
        some { mPimpl := { mEquivalentVariables := [some 0] } }]
      0 1 { mPimpl := { mEquivalentVariables := [some 2] } } (by decide) (by decide)⟩

/-- C20 (copy construction): for a live `v` in cell `p`, the copy made by
`Variable(v)` lands in a fresh cell; its link list is that of `v`, entry by
entry, its initial value is empty, its interface type is none and it has no
units, whatever `v` holds; and every cell that existed before, `v` and the
variables it links to included, is unchanged. -/
theorem copy_construction (h : Heap) (p : Nat) (v : Variable)
    (hv : deref h p = some v) :
    ∃ h', Op.apply h (Op.copyConstruct (some p)) = some h' ∧
      deref h' h.length = some (Variable.copy v) ∧
      (Variable.copy v).mPimpl.mEquivalentVariables = v.mPimpl.mEquivalentVariables ∧
      getInitialValue (Variable.copy v) = "" ∧
      getInterfaceType (Variable.copy v) = INTERFACE_TYPES.INTERFACE_TYPE_NONE ∧
      getUnits (Variable.copy v) = none ∧
      (∀ q, q < h.length → deref h' q = deref h q) := by
  refine ⟨alloc h (Variable.copy v), ?_, deref_alloc_length h _, rfl, rfl, rfl, rfl, ?_⟩
  · simp [Op.apply, hv]
  · intro q hq
    exact deref_alloc_lt _ hq

/-- Witness of C20: a variable that links to itself and has an initial value is
copied. -/
theorem copy_construction_witness :
    deref [some { mPimpl := { mEquivalentVariables := [some 0], mInitialValue := "1" } }] 0 =
      some { mPimpl := { mEquivalentVariables := [some 0], mInitialValue := "1" } } ∧
    ∃ h', Op.apply
        [some { mPimpl := { mEquivalentVariables := [some 0], mInitialValue := "1" } }]
        (Op.copyConstruct (some 0)) = some h' ∧
      deref h'
        [some ({ mPimpl := { mEquivalentVariables := [some 0],
                             mInitialValue := "1" } } : Variable)].length =
        some (Variable.copy
          { mPimpl := { mEquivalentVariables := [some 0], mInitialValue := "1" } }) ∧
      (Variable.copy { mPimpl := { mEquivalentVariables := [some 0],
                                   mInitialValue := "1" } }).mPimpl.mEquivalentVariables =
        ({ mPimpl := { mEquivalentVariables := [some 0], mInitialValue := "1" } } :
          Variable).mPimpl.mEquivalentVariables ∧
      getInitialValue (Variable.copy
        { mPimpl := { mEquivalentVariables := [some 0], mInitialValue := "1" } }) = "" ∧
      getInterfaceType (Variable.copy
        { mPimpl := { mEquivalentVariables := [some 0], mInitialValue := "1" } }) =
        INTERFACE_TYPES.INTERFACE_TYPE_NONE ∧
      getUnits (Variable.copy
        { mPimpl := { mEquivalentVariables := [some 0], mInitialValue := "1" } }) = none ∧
      (∀ q, q < [some ({ mPimpl := { mEquivalentVariables := [some 0],
                                     mInitialValue := "1" } } : Variable)].length →
        deref h' q =
          deref [some { mPimpl := { mEquivalentVariables := [some 0],
                                    mInitialValue := "1" } }] q) :=
  ⟨by decide,
    copy_construction
      [some { mPimpl := { mEquivalentVariables := [some 0], mInitialValue := "1" } }]
      0 { mPimpl := { mEquivalentVariables := [some 0], mInitialValue := "1" } }
      (by decide)⟩

/-! ## The expression tree -/

namespace operators

theorem spacedFrom_of_plain (p : Option Char) (l : List Char)
    (hl : l.all (fun c => !isOperatorSymbol c) = true) : spacedFrom p l = true := by
  induction l generalizing p with
  | nil => rfl
  | cons c rest ih =>
    simp only [List.all_cons, Bool.and_eq_true, Bool.not_eq_true'] at hl
    simp [spacedFrom, hl.1, ih (some c) hl.2]

theorem spacedFrom_of_none {l : List Char} (h : spacedFrom none l = true) (p : Option Char) :
    spacedFrom p l = true := by
  cases l with
  | nil => rfl
  | cons c rest =>
    simp only [spacedFrom, Bool.and_eq_true, Bool.or_eq_true, Bool.not_eq_true'] at h ⊢
    refine ⟨?_, h.2⟩
    rcases h.1 with hc | hc
    · exact Or.inl hc
    · simp at hc

theorem spacedFrom_append {p : Option Char} {l1 l2 : List Char}
    (h1 : spacedFrom p l1 = true) (h2 : spacedFrom none l2 = true) :
    spacedFrom p (l1 ++ l2) = true := by
  induction l1 generalizing p with
  | nil => exact spacedFrom_of_none h2 p
  | cons c rest ih =>
    simp only [spacedFrom, Bool.and_eq_true, Bool.or_eq_true, Bool.not_eq_true'] at h1
    simp only [List.cons_append, spacedFrom, Bool.and_eq_true, Bool.or_eq_true,
      Bool.not_eq_true']
    refine ⟨?_, ih h1.2⟩
    rcases h1.1 with hc | hc
    · exact Or.inl hc
    · refine Or.inr ⟨hc.1, ?_⟩
      cases rest with
      | nil => simp at hc
      | cons d rest => exact hc.2

theorem operatorCount_append (s t : String) :
    operatorCount (s ++ t) = operatorCount s + operatorCount t := by
  simp [operatorCount, List.countP_append]

theorem leafCount_pos {D : Type} (t : Representable D) : 0 < leafCount t := by
  induction t with
  | ArithmeticOperator opr arg1 arg2 ih1 _ => simp only [leafCount]; omega
  | Power arg1 arg2 ih1 _ => simp only [leafCount]; omega
  | STDOperator f arg ih => simpa [leafCount] using ih
  | Variable name => simp [leafCount]
  | Constant value => simp [leafCount]

theorem repr_glue {D : Type} (text : D → String) (opr : String)
    (arg1 arg2 : Representable D) :
    ((Representable.ArithmeticOperator opr arg1 arg2).repr text).data =
      (arg1.repr text).data ++ ((" " ++ opr ++ " ").data ++ (arg2.repr text).data) := by
  simp [Representable.repr, List.append_assoc]

theorem arithmetic_repr {D : Type} (text : D → String) (t : Representable D)
    (ha : isArithmeticTree t = true) (hp : plainNames t = true) :
    operatorCount (t.repr text) + 1 = leafCount t ∧
      operatorsSpaced (t.repr text) = true := by
  induction t with
  | ArithmeticOperator opr arg1 arg2 ih1 ih2 =>
    simp only [isArithmeticTree, Bool.and_eq_true, Bool.or_eq_true, beq_iff_eq] at ha
    simp only [plainNames, Bool.and_eq_true] at hp
    obtain ⟨c1, s1⟩ := ih1 ha.1.2 hp.1
    obtain ⟨c2, s2⟩ := ih2 ha.2 hp.2
    have hglue : operatorCount (" " ++ opr ++ " ") = 1 ∧
        spacedFrom none (" " ++ opr ++ " ").data = true := by
      rcases ha.1.1 with ((e | e) | e) | e <;> subst e <;> decide
    refine ⟨?_, ?_⟩
    · have e : (Representable.ArithmeticOperator opr arg1 arg2).repr text =
          arg1.repr text ++ ((" " ++ opr ++ " ") ++ arg2.repr text) := by
        apply String.ext
        simp [Representable.repr, List.append_assoc]
      rw [e, operatorCount_append, operatorCount_append, hglue.1]
      simp only [leafCount]
      omega
    · unfold operatorsSpaced at s1 s2 ⊢
      rw [repr_glue]
      exact spacedFrom_append s1 (spacedFrom_append hglue.2 s2)
  | Power arg1 arg2 _ _ => simp [isArithmeticTree] at ha
  | STDOperator f arg _ => simp [isArithmeticTree] at ha
  | Variable name =>
    simp only [plainNames] at hp
    refine ⟨?_, ?_⟩
    · have h0 : operatorCount name = 0 := by
        unfold operatorCount
        rw [List.countP_eq_zero]
        intro c hc
        have := List.all_eq_true.mp hp c hc
        simpa using this
      simp [Representable.repr, h0, leafCount]
    · exact spacedFrom_of_plain none _ hp
  | Constant value => simp [isArithmeticTree] at ha

/-- C13 (arithmetic rendering rule): `repr()` of an `Addition`, `Subtraction`,
`Multiplication` or `Division` node is `repr()` of its first argument, one
space, the symbol (`+`, `-`, `*`, `/` respectively), one space, and `repr()`
of its second argument; `repr()` of a `Variable` leaf is its name. -/
theorem repr_arithmetic {D : Type} (text : D → String) (left right : Representable D)
    (name : String) :
    (Addition left right).repr text = left.repr text ++ " + " ++ right.repr text ∧
    (Subtraction left right).repr text = left.repr text ++ " - " ++ right.repr text ∧
    (Multiplication left right).repr text = left.repr text ++ " * " ++ right.repr text ∧
    (Division left right).repr text = left.repr text ++ " / " ++ right.repr text ∧
    (Representable.Variable name : Representable D).repr text = name := by
  refine ⟨?_, ?_, ?_, ?_, rfl⟩ <;>
  · apply String.ext
    simp [Addition, Subtraction, Multiplication, Division, Representable.repr,
      List.append_assoc]

/-- C14, as the class documentation has it: `repr()` of an `AbsoluteValue`,
`Sine` or `Cosine` node is the string `std::`, the identifier (`abs`, `sin`,
`cos`), an opening parenthesis, `repr()` of the argument and a closing
parenthesis; a `Sine` node over the variable leaf `t` renders as
`std::sin(t)`. -/
theorem repr_std_operator {D : Type} (text : D → String) (arg : Representable D) :
    (AbsoluteValue arg).repr text = "std::abs(" ++ arg.repr text ++ ")" ∧
    (Sine arg).repr text = "std::sin(" ++ arg.repr text ++ ")" ∧
    (Cosine arg).repr text = "std::cos(" ++ arg.repr text ++ ")" ∧
    (Sine (Representable.Variable "t" : Representable D)).repr text = "std::sin(t)" := by
  refine ⟨?_, ?_, ?_, rfl⟩ <;>
  · apply String.ext
    simp [AbsoluteValue, Sine, Cosine, Representable.repr, List.append_assoc]

/-- Counterexample to C14: a `Sine` node over the variable leaf `t` renders as
`std::sin(t)`, which carries the namespace qualification and is not `sin(t)`. -/
theorem repr_sine_not_unqualified :
    (Sine (Representable.Variable "t" : Representable Unit)).repr (fun _ => "") =
      "std::sin(t)" ∧
    (Sine (Representable.Variable "t" : Representable Unit)).repr (fun _ => "") ≠
      "sin(t)" := by
  decide

/-- C15, for leaves whose names hold no operator symbol: the rendering of a tree
built only from `Addition`, `Subtraction`, `Multiplication` and `Division`
nodes over `Variable` leaves holds exactly `n - 1` operator symbols for `n`
leaves, and each of them has a space right before it and a space right after
it. -/
theorem repr_operator_count {D : Type} (text : D → String) (t : Representable D)
    (ha : isArithmeticTree t = true) (hp : plainNames t = true) :
    operatorCount (t.repr text) = leafCount t - 1 ∧
      operatorsSpaced (t.repr text) = true := by
  obtain ⟨hc, hs⟩ := arithmetic_repr text t ha hp
  exact ⟨by omega, hs⟩

/-- Witness of the amended C15: the tree of `a + b * c / d - e`. -/
theorem repr_operator_count_witness :
    isArithmeticTree (Subtraction
      (Addition (Representable.Variable "a")
        (Division (Multiplication (Representable.Variable "b") (Representable.Variable "c"))
          (Representable.Variable "d")))
      (Representable.Variable "e") : Representable Unit) = true ∧
    plainNames (Subtraction
      (Addition (Representable.Variable "a")
        (Division (Multiplication (Representable.Variable "b") (Representable.Variable "c"))
          (Representable.Variable "d")))
      (Representable.Variable "e") : Representable Unit) = true ∧
    (Subtraction
      (Addition (Representable.Variable "a")
        (Division (Multiplication (Representable.Variable "b") (Representable.Variable "c"))
          (Representable.Variable "d")))
      (Representable.Variable "e") : Representable Unit).repr (fun _ => "") =
      "a + b * c / d - e" ∧
    operatorCount ((Subtraction
      (Addition (Representable.Variable "a")
        (Division (Multiplication (Representable.Variable "b") (Representable.Variable "c"))
          (Representable.Variable "d")))
      (Representable.Variable "e") : Representable Unit).repr (fun _ => "")) =
      leafCount (Subtraction
        (Addition (Representable.Variable "a")
          (Division (Multiplication (Representable.Variable "b") (Representable.Variable "c"))
            (Representable.Variable "d")))
        (Representable.Variable "e") : Representable Unit) - 1 ∧
    operatorsSpaced ((Subtraction
      (Addition (Representable.Variable "a")
        (Division (Multiplication (Representable.Variable "b") (Representable.Variable "c"))
          (Representable.Variable "d")))
      (Representable.Variable "e") : Representable Unit).repr (fun _ => "")) = true :=
  ⟨by decide, by decide, by decide,
    repr_operator_count (fun _ => "")
      (Subtraction
        (Addition (Representable.Variable "a")
          (Division (Multiplication (Representable.Variable "b") (Representable.Variable "c"))
            (Representable.Variable "d")))
        (Representable.Variable "e") : Representable Unit)
      (by decide) (by decide)⟩

/-- Counterexample to C15: the tree `Addition(Variable("a-b"), Variable("c"))` has
two leaves and renders as `a-b + c`, which holds two operator symbols, the
first of them without spaces around it. -/
theorem repr_operator_count_named_leaf :
    isArithmeticTree (Addition (Representable.Variable "a-b") (Representable.Variable "c") :
      Representable Unit) = true ∧
    leafCount (Addition (Representable.Variable "a-b") (Representable.Variable "c") :
      Representable Unit) = 2 ∧
    (Addition (Representable.Variable "a-b") (Representable.Variable "c") :
      Representable Unit).repr (fun _ => "") = "a-b + c" ∧
    operatorCount ((Addition (Representable.Variable "a-b") (Representable.Variable "c") :
      Representable Unit).repr (fun _ => "")) = 2 ∧
    operatorsSpaced ((Addition (Representable.Variable "a-b") (Representable.Variable "c") :
      Representable Unit).repr (fun _ => "")) = false := by
  decide

/-- C16 (power rendering rule): `repr()` of a `Power` node is `pow(`, `repr()` of
the base, a comma and a space, `repr()` of the exponent, and a closing
parenthesis; over the variable leaf `x` and a constant whose text is `2` it
is `pow(x, 2)`. -/
theorem repr_power {D : Type} (text : D → String) (base exponent : Representable D)
    (two : D) (h2 : text two = "2") :
    (Representable.Power base exponent).repr text =
      "pow(" ++ base.repr text ++ ", " ++ exponent.repr text ++ ")" ∧
    (Representable.Power (Representable.Variable "x") (Representable.Constant two)).repr text =
      "pow(x, 2)" := by
  refine ⟨rfl, ?_⟩
  simp only [Representable.repr, h2]
  decide

/-- Witness of C16: the host conversion gives `2` for the constant. -/
theorem repr_power_witness :
    (fun _ => "2" : Unit → String) () = "2" ∧
    (Representable.Power (Sine (Representable.Variable "t")) (Representable.Constant ()) :
        Representable Unit).repr (fun _ => "2") =
      "pow(" ++ (Sine (Representable.Variable "t") : Representable Unit).repr (fun _ => "2")
        ++ ", " ++ (Representable.Constant () : Representable Unit).repr (fun _ => "2")
        ++ ")" ∧
    (Representable.Power (Representable.Variable "x") (Representable.Constant ()) :
        Representable Unit).repr (fun _ => "2") = "pow(x, 2)" :=
  ⟨rfl, repr_power (fun _ => "2") (Sine (Representable.Variable "t"))
    (Representable.Constant ()) () rfl⟩

/-- C17 (child replacement on composite nodes): on a `BinaryOperator`, after
`setArg1(x)` `getArg1()` returns `x` and `getArg2()` returns what it returned
before, and after `setArg2(x)` `getArg2()` returns `x` and `getArg1()` returns
what it returned before; on a `UnaryOperator`, after `setArg(x)` `getArg()`
returns `x`. -/
theorem getArg_setArg {P : Type} (node : BinaryOperator P) (unary : UnaryOperator P)
    (x : P) :
    (node.setArg1 x).getArg1 = x ∧ (node.setArg1 x).getArg2 = node.getArg2 ∧
    (node.setArg2 x).getArg2 = x ∧ (node.setArg2 x).getArg1 = node.getArg1 ∧
    (unary.setArg x).getArg = x :=
  ⟨rfl, rfl, rfl, rfl, rfl⟩

end operators

end libcellml
